import Mathlib

/-!
# Stricks (`src/stx.c`): a shallow embedding

A stricks handle is the address of the first data byte of a block laid out as

    [ header : Head1 (2 bytes) or Head4 (8 bytes) ][ cookie ][ flags ][ data ... ]

The embedding keeps that layout: memory is a map from addresses to bytes, a
handle is an address, and every function of `stx.c` is transcribed statement by
statement.  The host is taken to be the usual LP64 little-endian machine:
`size_t` and `intmax_t` have 64 bits, `int` has 32 bits, and the 32-bit fields
of `Head4` are stored least significant byte first.  Addresses are natural
numbers; where the program indexes a block with a capacity that the caller
chose (the closing zero written by `stx_new` and by `resize`), the address
wraps at `2 ^ 64` as it does on the machine.

The allocator and the formatted-output engine are collaborators of the
program, not part of it.  What the allocator answers (the address of the block
it hands out, `0` for a failed request) is an argument of every function that
allocates; the text that the output engine renders is an argument of the
formatted append.  A source text is passed as the list of the bytes found at
the source address.
-/

namespace Stricks

/-! ## Machine model -/

/-- One byte of memory. -/
abbrev Byte := Fin 256

/-- Conversion of an integer value to `unsigned char` / `uint8_t`. -/
def byte (v : Nat) : Byte := ⟨v % 256, Nat.mod_lt v (by decide)⟩

/-- Number of values of `size_t` (and of `intmax_t`). -/
def SIZE_MOD : Nat := 2 ^ 64

/-- Number of values of `uint32_t` (and of `int`). -/
def U32_MOD : Nat := 2 ^ 32

/-- Conversion of an integer to `size_t`. -/
def toSize (x : Int) : Nat := (x % (SIZE_MOD : Int)).toNat

/-- Conversion of an integer to `unsigned int`. -/
def toUInt (x : Int) : Nat := (x % (U32_MOD : Int)).toNat

/-- Unary minus on `size_t`. -/
def negSize (x : Nat) : Nat := (SIZE_MOD - x % SIZE_MOD) % SIZE_MOD

/-- Conversion of an integer to `intmax_t` (two's complement, 64 bits). -/
def toIntmax (x : Int) : Int := (x + 2 ^ 63) % 2 ^ 64 - 2 ^ 63

/-- Conversion of an integer to `int` (two's complement, 32 bits). -/
def toInt (x : Int) : Int := (x + 2 ^ 31) % 2 ^ 32 - 2 ^ 31

/-- The memory of the process, as far as `stx.c` is concerned.

* `mem a` is the byte stored at address `a`;
* `blk b` is the size of the live block whose first byte is at `b`, as recorded
  by the allocator (`0` when no live block starts at `b`);
* `oob` is raised by the first store that falls outside the block it is
  addressed through.  In C the behaviour is undefined from that store on; the
  embedding keeps executing on the flat memory and only records the fact. -/
structure Heap where
  mem : Nat → Byte
  blk : Nat → Nat
  oob : Bool

/-- The `n` bytes from address `a` lie inside the live block based at `base`. -/
def inblk (h : Heap) (base a n : Nat) : Bool :=
  decide (base ≤ a ∧ a + n ≤ base + h.blk base)

/-- Store of one byte at address `a`, reached through a pointer into the block at `base`. -/
def store (h : Heap) (base a : Nat) (b : Byte) : Heap :=
  { mem := fun x => if x = a then b else h.mem x
    blk := h.blk
    oob := h.oob || !inblk h base a 1 }

/-- Store of a `uint32_t` at address `a` (little-endian). -/
def store32 (h : Heap) (base a v : Nat) : Heap :=
  store (store (store (store h base a (byte v)) base (a + 1) (byte (v / 256)))
    base (a + 2) (byte (v / 65536))) base (a + 3) (byte (v / 16777216))

/-- Load of a `uint32_t` from address `a` (little-endian). -/
def load32 (h : Heap) (a : Nat) : Nat :=
  (h.mem a).val + 256 * (h.mem (a + 1)).val + 65536 * (h.mem (a + 2)).val
    + 16777216 * (h.mem (a + 3)).val

/-- The libc routine `memcpy (dst, src, n)` between two regions of memory; `dst` points into
the block at `base`. -/
def memcpy (h : Heap) (base dst src n : Nat) : Heap :=
  { mem := fun x => if dst ≤ x ∧ x < dst + n then h.mem (src + (x - dst)) else h.mem x
    blk := h.blk
    oob := h.oob || (decide (n ≠ 0) && !inblk h base dst n) }

/-- The libc routine `memcpy (dst, src, n)` where the source is a caller's text, given by its
bytes. -/
def memcpy_text (h : Heap) (base dst : Nat) (src : List Byte) (n : Nat) : Heap :=
  { mem := fun x => if dst ≤ x ∧ x < dst + n then src.getD (x - dst) 0 else h.mem x
    blk := h.blk
    oob := h.oob || (decide (n ≠ 0) && !inblk h base dst n) }

/-- The libc routine `bzero (dst, n)`. -/
def bzero (h : Heap) (base dst n : Nat) : Heap :=
  { mem := fun x => if dst ≤ x ∧ x < dst + n then 0 else h.mem x
    blk := h.blk
    oob := h.oob || (decide (n ≠ 0) && !inblk h base dst n) }

/-- The libc routine `memcmp (a, b, n) == 0`: the two regions hold the same `n` bytes. -/
def memcmp_eq (h : Heap) (a b : Nat) : Nat → Bool
  | 0 => true
  | n + 1 => memcmp_eq h a b n && decide (h.mem (a + n) = h.mem (b + n))

/-- The allocator hands out a block of `sz` bytes at `p`; `p = 0` is a failed request.  The
bytes of a fresh block are whatever the memory held there. -/
def malloc (h : Heap) (p sz : Nat) : Heap :=
  if p = 0 then h
  else { h with blk := fun b => if b = p then sz else h.blk b }

/-- The allocator resizes the block at `old` to `sz` bytes and answers `p` (`p = 0`: failure,
nothing changes).  The new block starts with the bytes of the old one, up to the lesser of
the two sizes; the old block is released unless the new one sits at the same address. -/
def realloc (h : Heap) (old p sz : Nat) : Heap :=
  if p = 0 then h
  else
    { mem := fun x =>
        if p ≤ x ∧ x < p + min (h.blk old) sz then h.mem (old + (x - p)) else h.mem x
      blk := fun b => if b = p then sz else if b = old then 0 else h.blk b
      oob := h.oob }

/-- The allocator releases the block at `p`. -/
def free (h : Heap) (p : Nat) : Heap :=
  { h with blk := fun b => if b = p then 0 else h.blk b }

/-- Pointer arithmetic wraps at `2 ^ 64`.  The sum `a` was formed from a pointer into the block
at `head` and a `size_t` index; its distance from the head of the block is reduced to 64 bits
and read in two's complement, so that a distance of `2 ^ 64 - k` with `k ≤ 2 ^ 63` is the
address `k` bytes before the head.  This is the address the machine computes whenever that
address lies in the address space. -/
def wrap (head a : Nat) : Nat :=
  let d := (a - head) % SIZE_MOD
  if d < SIZE_MOD / 2 then head + d else head + d - SIZE_MOD

/-- The libc routine `strlen`: number of bytes before the first zero byte.  The text is given
by the bytes at the source address; it ends at the first zero byte, or at the end of the
list, where the terminating zero then sits. -/
def strlen : List Byte → Nat
  | [] => 0
  | b :: t => if b = 0 then 0 else strlen t + 1

/-- The libc routine `strnlen`: `strlen`, looking at `n` bytes at most. -/
def strnlen (src : List Byte) (n : Nat) : Nat := min (strlen src) n

/-! ## Layout (`stx.c`, lines 22-81) -/

/-- Value of `sizeof(Head1)`: two `uint8_t` fields. -/
def sizeof_Head1 : Nat := 2

/-- Value of `sizeof(Head4)`: two `uint32_t` fields. -/
def sizeof_Head4 : Nat := 8

/-- Value of `sizeof(Attr)`: cookie and flags; the flexible `data` member adds nothing. -/
def sizeof_Attr : Nat := 2

/-- Enumerator `TYPE1 = (int)log2(sizeof(Head1))`. -/
def TYPE1 : Nat := 1

/-- Enumerator `TYPE4 = (int)log2(sizeof(Head4))`. -/
def TYPE4 : Nat := 3

def MAGIC : Nat := 170

def TYPE_BITS : Nat := 2

def TYPE_MASK : Nat := (1 <<< TYPE_BITS) - 1

/-- The two fields of a header. -/
inductive Field where
  | cap : Field
  | len : Field
  deriving DecidableEq

/-- Offset of a field in `Head1`. -/
def off1 : Field → Nat
  | .cap => 0
  | .len => 1

/-- Offset of a field in `Head4`. -/
def off4 : Field → Nat
  | .cap => 0
  | .len => 4

/-- Macro `COOKIE(s)`: the byte at `s[-2]`. -/
def COOKIE (h : Heap) (s : Nat) : Nat := (h.mem (s - 2)).val

/-- Macro `FLAGS(s)`: the byte at `s[-1]`. -/
def FLAGS (h : Heap) (s : Nat) : Nat := (h.mem (s - 1)).val

/-- Macro `TYPE(s)`. -/
def TYPE (h : Heap) (s : Nat) : Nat := FLAGS h s &&& TYPE_MASK

/-- Macro `HEADSZ(type)`. -/
def HEADSZ (type : Nat) : Nat := 1 <<< type

/-- Macro `MEMSZ(type,cap)`, computed in `size_t`. -/
def MEMSZ (type cap : Nat) : Nat := (HEADSZ type + sizeof_Attr + cap + 1) % SIZE_MOD

/-- Macro `CHECK(s)`. -/
def CHECK (h : Heap) (s : Nat) : Bool := decide (s ≠ 0) && decide (COOKIE h s = MAGIC)

/-- Macro `HEAD(s)`. -/
def HEAD (h : Heap) (s : Nat) : Nat := s - sizeof_Attr - HEADSZ (TYPE h s)

/-- Macro `ATTR(head,type)`. -/
def ATTR (head type : Nat) : Nat := head + HEADSZ type

/-- Macro `DATA(head,type)`. -/
def DATA (head type : Nat) : Nat := head + HEADSZ type + sizeof_Attr

/-- Macro `SETPROP(head, type, prop, val)`: a `switch` with no default case. -/
def SETPROP (h : Heap) (head type : Nat) (f : Field) (val : Nat) : Heap :=
  if type = TYPE1 then store h head (head + off1 f) (byte val)
  else if type = TYPE4 then store32 h head (head + off4 f) val
  else h

/-- Macro `GETPROP(head, type, prop)`. -/
def GETPROP (h : Heap) (head type : Nat) (f : Field) : Nat :=
  if type = TYPE4 then load32 h (head + off4 f) else (h.mem (head + off1 f)).val

/-- Macro `GETCAP(head, type)`: one conditional expression.  The `Head4` difference is taken in
`unsigned int` and the `Head1` difference in `int`, so the expression has type `unsigned int`
and the `Head1` difference is converted to it. -/
def GETCAP (h : Heap) (head type : Nat) : Nat :=
  if type = TYPE4 then
    (load32 h (head + off4 .cap) + U32_MOD - load32 h (head + off4 .len)) % U32_MOD
  else
    toUInt ((h.mem (head + off1 .cap)).val - (h.mem (head + off1 .len)).val)

/-! ## Public functions (`stx.c`, lines 91-301) and the two private ones (lines 333-426) -/

/-- Function `stx_new (cap)`; `p` is the answer of `STX_MALLOC`.  Returns the heap and the
handle (`0` for `NULL`).  The address of `attr->data[cap]` is formed with the caller's `cap`
and wraps. -/
def stx_new (h : Heap) (p : Nat) (cap : Nat) : Heap × Nat :=
  let type := if cap ≥ 256 then TYPE4 else TYPE1
  let h := malloc h p (MEMSZ type cap)
  let head := p
  if head = 0 then (h, 0)
  else
    let h := SETPROP h head type .cap cap
    let h := SETPROP h head type .len 0
    let attr := ATTR head type
    let h := store h head attr (byte MAGIC)
    let h := store h head (attr + 1) (byte type)
    let h := store h head (attr + sizeof_Attr + 0) 0
    let h := store h head (wrap head (attr + sizeof_Attr + cap)) 0
    (h, attr + sizeof_Attr)

/-- Macro `ACCESS(s, prop)`, the body of `stx_cap` and `stx_len`. -/
def ACCESS (h : Heap) (s : Nat) (f : Field) : Nat :=
  if !CHECK h s then 0
  else
    let head := HEAD h s
    if TYPE h s = TYPE1 then (h.mem (head + off1 f)).val
    else if TYPE h s = TYPE4 then load32 h (head + off4 f)
    else 0

/-- Function `stx_cap (s)`. -/
def stx_cap (h : Heap) (s : Nat) : Nat := ACCESS h s .cap

/-- Function `stx_len (s)`. -/
def stx_len (h : Heap) (s : Nat) : Nat := ACCESS h s .len

/-- Function `stx_spc (s)`: each case of the `switch` returns its own difference, converted to
`size_t`. -/
def stx_spc (h : Heap) (s : Nat) : Nat :=
  if !CHECK h s then 0
  else
    let head := HEAD h s
    if TYPE h s = TYPE4 then
      (load32 h (head + off4 .cap) + U32_MOD - load32 h (head + off4 .len)) % U32_MOD
    else if TYPE h s = TYPE1 then
      toSize ((h.mem (head + off1 .cap)).val - (h.mem (head + off1 .len)).val)
    else 0

/-- Function `stx_check (s)`. -/
def stx_check (h : Heap) (s : Nat) : Bool := CHECK h s

/-- Function `resize (ps, newcap)`; `s` is the handle found in `*ps`, `p` the answer of
`realloc` or `STX_MALLOC`.  Returns the heap, the handle left in `*ps` and the result.
The flags are an `unsigned char`, so `~TYPE_MASK` acts on them as `255 - TYPE_MASK`.  The
address of `news[newcap]` is formed with the caller's `newcap` and wraps. -/
def resize (h : Heap) (s : Nat) (newcap : Nat) (p : Nat) : Heap × Nat × Bool :=
  if !CHECK h s then (h, s, false)
  else
    let head := HEAD h s
    let type := TYPE h s
    let cap := GETPROP h head type .cap
    let len := GETPROP h head type .len
    if newcap = cap then (h, s, true)
    else
      let newtype := if newcap ≥ 256 then TYPE4 else TYPE1
      let sametype := decide (newtype = type)
      let h1 :=
        if sametype then realloc h head p (MEMSZ type newcap)
        else malloc h p (MEMSZ newtype newcap)
      let newhead := p
      if newhead = 0 then (h1, s, false)
      else
        let news := DATA newhead newtype
        let h2 :=
          if !sametype then
            let h := memcpy h1 newhead news s ((len + 1) % SIZE_MOD)
            let h := SETPROP h newhead newtype .len len
            let h := store h newhead (news - 2) (byte MAGIC)
            store h newhead (news - 1) (byte ((FLAGS h news &&& (255 - TYPE_MASK)) ||| newtype))
          else h1
        let h3 := if newcap < len then SETPROP h2 newhead newtype .len newcap else h2
        let h4 := SETPROP h3 newhead newtype .cap newcap
        let h5 := store h4 newhead (wrap newhead (news + newcap)) 0
        (h5, news, true)

/-- Function `stx_resize (ps, newcap)`. -/
def stx_resize (h : Heap) (s : Nat) (newcap : Nat) (p : Nat) : Heap × Nat × Bool :=
  resize h s newcap p

/-- Function `append (dst, src, n, alloc)`.  `s` is the handle (passed directly, or found in
`*dst` when `alloc` is set), `src` is `none` for a null source, `p` is the allocator's answer
should `resize` be called, and `FAIL` is the value of `STX_FAIL`, which `stx.h` defines.
Returns the heap, the handle (as left in `*dst` when `alloc` is set) and the result. -/
def append (FAIL : Int) (h : Heap) (s : Nat) (src : Option (List Byte)) (n : Nat)
    (alloc : Bool) (p : Nat) : Heap × Nat × Int :=
  match src with
  | none => (h, s, FAIL)
  | some src =>
    if !CHECK h s then (h, s, FAIL)
    else
      let head := HEAD h s
      let type := TYPE h s
      let cap := GETPROP h head type .cap
      let len := GETPROP h head type .len
      let inc := if n ≠ 0 then strnlen src n else strlen src
      let totlen := (len + inc) % SIZE_MOD
      let write (h : Heap) (s head : Nat) : Heap × Nat × Int :=
        let end_ := s + len
        let h := memcpy_text h head end_ src inc
        let h := store h head (end_ + inc) 0
        let h := SETPROP h head type .len totlen
        (h, s, toIntmax inc)
      if totlen > cap then
        if !alloc then (h, s, toIntmax (negSize totlen))
        else
          match resize h s (totlen * 2 % SIZE_MOD) p with
          | (h1, _, false) => (h1, s, FAIL)
          | (h1, s1, true) => write h1 s1 (HEAD h1 s1)
      else write h s head

/-- Function `stx_append (dst, src)`. -/
def stx_append (FAIL : Int) (h : Heap) (dst : Nat) (src : Option (List Byte)) : Heap × Int :=
  let r := append FAIL h dst src 0 false 0
  (r.1, r.2.2)

/-- Function `stx_append_count (dst, src, n)`. -/
def stx_append_count (FAIL : Int) (h : Heap) (dst : Nat) (src : Option (List Byte))
    (n : Nat) : Heap × Int :=
  let r := append FAIL h dst src n false 0
  (r.1, r.2.2)

/-- Function `stx_append_alloc (dst, src)`; the result is converted to `size_t`. -/
def stx_append_alloc (FAIL : Int) (h : Heap) (s : Nat) (src : Option (List Byte))
    (p : Nat) : Heap × Nat × Nat :=
  let r := append FAIL h s src 0 true p
  (r.1, r.2.1, toSize r.2.2)

/-- Function `stx_append_count_alloc (dst, src, n)`; the result is converted to `size_t`. -/
def stx_append_count_alloc (FAIL : Int) (h : Heap) (s : Nat) (src : Option (List Byte))
    (n : Nat) (p : Nat) : Heap × Nat × Nat :=
  let r := append FAIL h s src n true p
  (r.1, r.2.1, toSize r.2.2)

/-- Function `stx_from (src)`; `p` is the answer of `STX_MALLOC` inside `stx_new`. -/
def stx_from (FAIL : Int) (h : Heap) (p : Nat) (src : List Byte) : Heap × Nat :=
  let len := strlen src
  let r := stx_new h p len
  let a := stx_append_count FAIL r.1 r.2 (some src) len
  (a.1, r.2)

/-- Function `dup (s)`; `p` is the answer of `malloc`. -/
def dup (h : Heap) (s : Nat) (p : Nat) : Heap × Nat :=
  let head := HEAD h s
  let type := TYPE h s
  let len := GETPROP h head type .len
  let sz := MEMSZ type len
  let h1 := malloc h p sz
  let new_head := p
  if new_head = 0 then (h1, 0)
  else
    let h2 := memcpy h1 new_head new_head head sz
    let h3 := SETPROP h2 new_head type .cap len
    let ret := DATA new_head type
    let h4 := store h3 new_head (ret + len) 0
    (h4, ret)

/-- Function `stx_dup (s)`. -/
def stx_dup (h : Heap) (s : Nat) (p : Nat) : Heap × Nat :=
  if CHECK h s then dup h s p else (h, 0)

/-- Function `stx_reset (s)`. -/
def stx_reset (h : Heap) (s : Nat) : Heap :=
  if !CHECK h s then h
  else
    let head := HEAD h s
    let type := TYPE h s
    let h := SETPROP h head type .len 0
    store h head s 0

/-- Function `stx_free (s)`. -/
def stx_free (h : Heap) (s : Nat) : Heap :=
  if !CHECK h s then h
  else
    let head := HEAD h s
    let h :=
      if TYPE h s = TYPE4 then bzero h head head (sizeof_Head4 + sizeof_Attr)
      else if TYPE h s = TYPE1 then bzero h head head (sizeof_Head1 + sizeof_Attr)
      else h
    free h head

/-- What the formatted-output engine makes of a format and its arguments: an encoding error,
or the complete text. -/
inductive Rendering where
  | error : Rendering
  | text (out : List Byte) : Rendering

/-- The libc routine `vsnprintf (dst, size, fmt, args)`: writes at most `size - 1` bytes of
the rendered text and a terminating zero, and returns the length of the complete text; on an
encoding error it returns a negative value (the buffer is left as it was). -/
def vsnprintf (h : Heap) (base dst size : Nat) (r : Rendering) : Heap × Int :=
  match r with
  | .error => (h, -1)
  | .text out =>
    if size = 0 then (h, (out.length : Int))
    else
      let k := min out.length (size - 1)
      let h := memcpy_text h base dst out k
      (store h base (dst + k) 0, (out.length : Int))

/-- Function `append_format (dst, fmt, args)`; `r` is what the engine renders from `fmt` and
`args`, `FAIL` the value of `STX_FAIL`. -/
def append_format (FAIL : Int) (h : Heap) (dst : Nat) (r : Rendering) : Heap × Int :=
  let head := HEAD h dst
  let type := TYPE h dst
  let len := GETPROP h head type .len
  let spc := GETCAP h head type
  if spc = 0 then (h, FAIL)
  else
    let end_ := dst + len
    let v := vsnprintf h head end_ ((spc + 1) % SIZE_MOD) r
    let h := v.1
    let src_len : Nat := toSize v.2
    if src_len < 0 then (store h head end_ 0, FAIL)
    else if src_len > spc then
      (store h head end_ 0, toInt (negSize ((len + src_len) % SIZE_MOD)))
    else (SETPROP h head type .len src_len, toInt src_len)

/-- Function `stx_append_format (dst, fmt, ...)`. -/
def stx_append_format (FAIL : Int) (h : Heap) (dst : Nat) (r : Rendering) : Heap × Int :=
  if !CHECK h dst then (h, 0) else append_format FAIL h dst r

/-- Function `stx_equal (a, b)`. -/
def stx_equal (h : Heap) (a b : Nat) : Bool :=
  if !CHECK h a || !CHECK h b then false
  else
    let heada := HEAD h a
    let headb := HEAD h b
    let typea := TYPE h a
    let typeb := TYPE h b
    let lena := GETPROP h heada typea .len
    decide (lena = GETPROP h headb typeb .len) && memcmp_eq h a b lena

/-! ## Valid handles -/

/-- A handle in the state the data model prescribes: the cookie is in place, the width bits
name one of the two headers, the handle sits behind its header, the length does not exceed
the capacity, the block holds header, validity record and `capacity + 1` data bytes, and the
bytes at offsets `length` and `capacity` are zero. -/
def Valid (h : Heap) (s : Nat) : Prop :=
  CHECK h s = true ∧
  (TYPE h s = TYPE1 ∨ TYPE h s = TYPE4) ∧
  HEADSZ (TYPE h s) + sizeof_Attr < s ∧
  stx_len h s ≤ stx_cap h s ∧
  HEADSZ (TYPE h s) + sizeof_Attr + stx_cap h s + 1 ≤ h.blk (HEAD h s) ∧
  h.mem (s + stx_len h s) = 0 ∧
  h.mem (s + stx_cap h s) = 0

instance (h : Heap) (s : Nat) : Decidable (Valid h s) := by
  unfold Valid; infer_instance

/-- The block of `sz` bytes at `p` does not meet the block that the handle `s` lives in. -/
def Apart (h : Heap) (s : Nat) (p sz : Nat) : Prop :=
  p + sz ≤ HEAD h s ∨ HEAD h s + h.blk (HEAD h s) ≤ p

instance (h : Heap) (s p sz : Nat) : Decidable (Apart h s p sz) := by
  unfold Apart; infer_instance

/-! ## Auxiliary notions for the proofs -/

/-- Largest value plus one that a header of the given width stores in a field. -/
def fieldMod (type : Nat) : Nat := if type = TYPE4 then 2 ^ 32 else 256

/-- The block at `hd` starts with a header of width `t` that stores capacity `c` and length
`l`, followed by the cookie and by flags whose width bits name `t`. -/
def Hdr (h : Heap) (hd t c l : Nat) : Prop :=
  (t = TYPE1 ∨ t = TYPE4) ∧
  (h.mem (hd + HEADSZ t)).val = MAGIC ∧
  (h.mem (hd + HEADSZ t + 1)).val &&& TYPE_MASK = t ∧
  GETPROP h hd t .cap = c ∧
  GETPROP h hd t .len = l

/-- Header width that `stx_new` and `resize` select for a capacity. -/
def typeFor (cap : Nat) : Nat := if cap ≥ 256 then TYPE4 else TYPE1

/-- Number of bytes that `append` takes from the source. -/
def incOf (src : List Byte) (n : Nat) : Nat := if n ≠ 0 then strnlen src n else strlen src

/-- The width bits of a handle that passes the check name one of the two headers.  A handle
that fails the check is in this state, and so is a handle that `stx_new` hands out for a
capacity below `2 ^ 32`; the check itself does not look at the width bits. -/
def WidthOk (h : Heap) (s : Nat) : Prop :=
  CHECK h s = true → (TYPE h s = TYPE1 ∨ TYPE h s = TYPE4)

instance (h : Heap) (s : Nat) : Decidable (WidthOk h s) := by
  unfold WidthOk; infer_instance

/-- The invariant of the data model on length, terminator and sentinel. -/
def Inv (h : Heap) (s : Nat) : Prop :=
  stx_len h s ≤ stx_cap h s ∧ h.mem (s + stx_len h s) = 0 ∧ h.mem (s + stx_cap h s) = 0

instance (h : Heap) (s : Nat) : Decidable (Inv h s) := by
  unfold Inv; infer_instance

/-- A heap with nothing in it. -/
def emptyHeap : Heap := { mem := fun _ => 0, blk := fun _ => 0, oob := false }

/-! ## Concrete heaps used as examples -/

/-- A block at address 16 made by `stx_new (4)` and holding the text "ab". -/
def heapAb : Heap := (stx_append 0 (stx_new emptyHeap 16 4).1 20 (some [97, 98])).1

/-- A wide block at address 16 (handle 26) of capacity `2 ^ 31 + 1` that holds `2 ^ 31`
bytes `a`: the state that `stx_new (2 ^ 31 + 1)` and an append of that many bytes leave. -/
def heapHuge : Heap :=
  { mem := fun a =>
      if a = 16 then 1 else if a = 19 then 128      -- capacity, least significant byte first
      else if a = 23 then 128                       -- length
      else if a = 24 then 170 else if a = 25 then 3 -- cookie, flags
      else if 26 ≤ a ∧ a < 26 + 2147483648 then 97 else 0
    blk := fun b => if b = 16 then 2147483648 + 12 else 0
    oob := false }

/-- A wide block at address 16 made by `stx_new (300)` and holding the twelve bytes
"abcdefghijkl"; its handle is 26. -/
def heapWide : Heap :=
  (stx_append 0 (stx_new emptyHeap 16 300).1 26
    (some [97, 98, 99, 100, 101, 102, 103, 104, 105, 106, 107, 108])).1

/-- A wide block with capacity 3: the duplicate, at address 1000 (handle 1010), of a handle
made by `stx_new (300)` that holds the text "abc". -/
def heapDup : Heap :=
  (stx_dup (stx_append 0 (stx_new emptyHeap 16 300).1 26 (some [97, 98, 99])).1 26 1000).1

/-- A narrow block at address 16 made by `stx_new (10)` and holding the text "abc"; its
handle is 20. -/
def heapAbc : Heap := (stx_append 0 (stx_new emptyHeap 16 10).1 20 (some [97, 98, 99])).1

/-- Three handles in one heap: the narrow handle 20 holding "abc" (capacity 10), the wide
handle 110 holding "abc" (capacity 300) and the narrow handle 204 holding "ab". -/
def heapThree : Heap :=
  (stx_append 0
    (stx_new (stx_append 0 (stx_new heapAbc 100 300).1 110 (some [97, 98, 99])).1 200 10).1
    204 (some [97, 98])).1

/-- Handles of five kinds in one heap.  The handles 100 and 700 pass the check with width bits
that name no header: 0 for the handle 100, 2 for the handle 700.  The handles 304, 504 and
804 are narrow handles in good order: 304 holds 170 bytes "a" (capacity 170), 504 is empty
(capacity 4), 804 holds "a" (capacity 1).  The data of the handle 100 are 170 bytes "a", the
data of the handle 700 start with "a", and the byte five places before the handle 700 is 1. -/
def heapOdd : Heap :=
  { mem := fun x =>
      if x = 98 then 170 else if x = 99 then 0
      else if x = 300 then 170 else if x = 301 then 170
      else if x = 302 then 170 else if x = 303 then 1
      else if x = 500 then 4 else if x = 501 then 0
      else if x = 502 then 170 else if x = 503 then 1
      else if x = 695 then 1 else if x = 698 then 170 else if x = 699 then 2
      else if x = 700 then 97
      else if x = 800 then 1 else if x = 801 then 1
      else if x = 802 then 170 else if x = 803 then 1
      else if x = 804 then 97
      else if (100 ≤ x ∧ x < 270) ∨ (304 ≤ x ∧ x < 474) then 97
      else 0
    blk := fun b =>
      if b = 300 then 175 else if b = 500 then 9 else if b = 800 then 6 else 0
    oob := false }

/-- A heap whose every byte is 255 and where nothing is allocated: fresh blocks taken from it
hold that value until they are written. -/
def heapFF : Heap := { mem := fun _ => 255, blk := fun _ => 0, oob := false }

/-- A narrow block at address 16 made by `stx_from` of "ab": length and capacity 2, no
space left; its handle is 20. -/
def heapFull : Heap := (stx_from 0 emptyHeap 16 [97, 98]).1

/-! ## Memory primitives -/

@[simp] theorem store_mem (h : Heap) (base a : Nat) (b : Byte) (x : Nat) :
    (store h base a b).mem x = if x = a then b else h.mem x := rfl

@[simp] theorem store_blk (h : Heap) (base a : Nat) (b : Byte) :
    (store h base a b).blk = h.blk := rfl

@[simp] theorem memcpy_mem (h : Heap) (base dst src n x : Nat) :
    (memcpy h base dst src n).mem x =
      if dst ≤ x ∧ x < dst + n then h.mem (src + (x - dst)) else h.mem x := rfl

@[simp] theorem memcpy_blk (h : Heap) (base dst src n : Nat) :
    (memcpy h base dst src n).blk = h.blk := rfl

@[simp] theorem memcpy_text_mem (h : Heap) (base dst : Nat) (src : List Byte) (n x : Nat) :
    (memcpy_text h base dst src n).mem x =
      if dst ≤ x ∧ x < dst + n then src.getD (x - dst) 0 else h.mem x := rfl

@[simp] theorem memcpy_text_blk (h : Heap) (base dst : Nat) (src : List Byte) (n : Nat) :
    (memcpy_text h base dst src n).blk = h.blk := rfl

@[simp] theorem malloc_mem (h : Heap) (p sz : Nat) : (malloc h p sz).mem = h.mem := by
  unfold malloc; split <;> rfl

theorem malloc_blk (h : Heap) (p sz : Nat) (hp : p ≠ 0) (b : Nat) :
    (malloc h p sz).blk b = if b = p then sz else h.blk b := by
  unfold malloc; rw [if_neg hp]

theorem byte_val (v : Nat) : (byte v).val = v % 256 := rfl

/-- An index below `2 ^ 63` past a pointer into the block does not wrap. -/
theorem wrap_small (head a : Nat) (h1 : head ≤ a) (h2 : a - head < 2 ^ 63) :
    wrap head a = a := by
  unfold wrap SIZE_MOD
  simp only []
  rw [Nat.mod_eq_of_lt (by omega), if_pos (by omega)]
  omega

theorem load32_lt (h : Heap) (a : Nat) : load32 h a < 2 ^ 32 := by
  unfold load32
  have h0 := (h.mem a).isLt
  have h1 := (h.mem (a + 1)).isLt
  have h2 := (h.mem (a + 2)).isLt
  have h3 := (h.mem (a + 3)).isLt
  omega

theorem load32_congr (h1 h2 : Heap) (a b : Nat)
    (e : ∀ i, i < 4 → h1.mem (a + i) = h2.mem (b + i)) : load32 h1 a = load32 h2 b := by
  unfold load32
  have e0 := e 0 (by omega)
  have e1 := e 1 (by omega)
  have e2 := e 2 (by omega)
  have e3 := e 3 (by omega)
  simp only [Nat.add_zero] at e0
  rw [e0, e1, e2, e3]

theorem store32_mem_out (h : Heap) (base a v x : Nat) (hx : x < a ∨ a + 4 ≤ x) :
    (store32 h base a v).mem x = h.mem x := by
  unfold store32
  simp only [store_mem]
  rw [if_neg (by omega), if_neg (by omega), if_neg (by omega), if_neg (by omega)]

@[simp] theorem store32_blk (h : Heap) (base a v : Nat) :
    (store32 h base a v).blk = h.blk := rfl

theorem store32_mem_in (h : Heap) (base a v : Nat) :
    (store32 h base a v).mem a = byte v ∧
    (store32 h base a v).mem (a + 1) = byte (v / 256) ∧
    (store32 h base a v).mem (a + 2) = byte (v / 65536) ∧
    (store32 h base a v).mem (a + 3) = byte (v / 16777216) := by
  unfold store32
  simp

theorem load32_store32 (h : Heap) (base a v : Nat) :
    load32 (store32 h base a v) a = v % 2 ^ 32 := by
  obtain ⟨m0, m1, m2, m3⟩ := store32_mem_in h base a v
  unfold load32
  rw [m0, m1, m2, m3]
  simp only [byte_val]
  omega

/-! ## Stores that stay inside their block -/

theorem inblk_eq_true (h : Heap) (base a n : Nat) (h1 : base ≤ a)
    (h2 : a + n ≤ base + h.blk base) : inblk h base a n = true := by
  unfold inblk; simp [h1, h2]

theorem store_oob (h : Heap) (base a : Nat) (b : Byte) (h1 : base ≤ a)
    (h2 : a + 1 ≤ base + h.blk base) : (store h base a b).oob = h.oob := by
  unfold store; simp [inblk_eq_true h base a 1 h1 h2]

theorem store32_oob (h : Heap) (base a v : Nat) (h1 : base ≤ a)
    (h2 : a + 4 ≤ base + h.blk base) : (store32 h base a v).oob = h.oob := by
  unfold store32
  rw [store_oob _ _ _ _ (by omega) (by simp only [store_blk]; omega),
    store_oob _ _ _ _ (by omega) (by simp only [store_blk]; omega),
    store_oob _ _ _ _ (by omega) (by simp only [store_blk]; omega),
    store_oob _ _ _ _ (by omega) (by omega)]

theorem memcpy_oob (h : Heap) (base dst src n : Nat) (h1 : base ≤ dst)
    (h2 : dst + n ≤ base + h.blk base) : (memcpy h base dst src n).oob = h.oob := by
  unfold memcpy; simp [inblk_eq_true h base dst n h1 h2]

theorem memcpy_text_oob (h : Heap) (base dst : Nat) (src : List Byte) (n : Nat)
    (h1 : base ≤ dst) (h2 : dst + n ≤ base + h.blk base) :
    (memcpy_text h base dst src n).oob = h.oob := by
  unfold memcpy_text; simp [inblk_eq_true h base dst n h1 h2]

theorem store_oob_mono (h : Heap) (base a : Nat) (b : Byte) (ho : h.oob = true) :
    (store h base a b).oob = true := by
  unfold store; simp [ho]

theorem store32_oob_mono (h : Heap) (base a v : Nat) (ho : h.oob = true) :
    (store32 h base a v).oob = true := by
  unfold store32
  exact store_oob_mono _ _ _ _ (store_oob_mono _ _ _ _ (store_oob_mono _ _ _ _
    (store_oob_mono _ _ _ _ ho)))

@[simp] theorem malloc_oob (h : Heap) (p sz : Nat) : (malloc h p sz).oob = h.oob := by
  unfold malloc; split <;> rfl

@[simp] theorem realloc_oob (h : Heap) (old p sz : Nat) : (realloc h old p sz).oob = h.oob := by
  unfold realloc; split <;> rfl

/-! ## Header fields -/

theorem HEADSZ_TYPE1 : HEADSZ TYPE1 = 2 := rfl

theorem HEADSZ_TYPE4 : HEADSZ TYPE4 = 8 := rfl

theorem off_lt (type : Nat) (ht : type = TYPE1 ∨ type = TYPE4) (f : Field) :
    (type = TYPE1 → off1 f + 1 ≤ HEADSZ type) ∧ (type = TYPE4 → off4 f + 4 ≤ HEADSZ type) := by
  rcases ht with rfl | rfl <;> cases f <;> simp [off1, off4, HEADSZ, TYPE1, TYPE4]

@[simp] theorem SETPROP_blk (h : Heap) (head type : Nat) (f : Field) (v : Nat) :
    (SETPROP h head type f v).blk = h.blk := by
  unfold SETPROP; split
  · rfl
  · split <;> rfl

theorem SETPROP_oob (h : Heap) (head type : Nat) (f : Field) (v : Nat)
    (hroom : HEADSZ type ≤ h.blk head) : (SETPROP h head type f v).oob = h.oob := by
  unfold SETPROP
  split
  · next ht =>
    subst ht
    rw [HEADSZ_TYPE1] at hroom
    apply store_oob
    · omega
    · cases f <;> simp only [off1] <;> omega
  · split
    · next _ ht =>
      subst ht
      rw [HEADSZ_TYPE4] at hroom
      apply store32_oob
      · omega
      · cases f <;> simp only [off4] <;> omega
    · rfl

theorem SETPROP_oob_mono (h : Heap) (head type : Nat) (f : Field) (v : Nat)
    (ho : h.oob = true) : (SETPROP h head type f v).oob = true := by
  unfold SETPROP
  split
  · exact store_oob_mono _ _ _ _ ho
  · split
    · exact store32_oob_mono _ _ _ _ ho
    · exact ho

/-- Only the header is written by `SETPROP`. -/
theorem SETPROP_mem_out (h : Heap) (head type : Nat) (f : Field) (v x : Nat)
    (hx : x < head ∨ head + HEADSZ type ≤ x) :
    (SETPROP h head type f v).mem x = h.mem x := by
  unfold SETPROP
  split
  · next ht =>
    subst ht
    rw [HEADSZ_TYPE1] at hx
    rw [store_mem, if_neg]
    cases f <;> simp only [off1] <;> omega
  · split
    · next _ ht =>
      subst ht
      rw [HEADSZ_TYPE4] at hx
      apply store32_mem_out
      cases f <;> simp only [off4] <;> omega
    · rfl

theorem GETPROP_lt (h : Heap) (head type : Nat) (f : Field) :
    GETPROP h head type f < fieldMod type := by
  unfold GETPROP fieldMod
  split
  · exact load32_lt _ _
  · exact (h.mem _).isLt

theorem GETPROP_congr (h1 h2 : Heap) (a b type : Nat) (f : Field)
    (ht : type = TYPE1 ∨ type = TYPE4)
    (e : ∀ i, i < HEADSZ type → h1.mem (a + i) = h2.mem (b + i)) :
    GETPROP h1 a type f = GETPROP h2 b type f := by
  have ho := off_lt type ht f
  unfold GETPROP
  split
  · next h4 =>
    apply load32_congr
    intro i hi
    have := ho.2 h4
    rw [Nat.add_assoc, Nat.add_assoc]
    exact e _ (by omega)
  · next h4 =>
    have h1' : type = TYPE1 := by rcases ht with h | h; exact h; exact absurd h h4
    have := ho.1 h1'
    rw [e _ (by omega)]

theorem GETPROP_SETPROP_same (h : Heap) (head type : Nat) (f : Field) (v : Nat)
    (ht : type = TYPE1 ∨ type = TYPE4) :
    GETPROP (SETPROP h head type f v) head type f = v % fieldMod type := by
  rcases ht with rfl | rfl
  · simp [GETPROP, SETPROP, fieldMod, TYPE1, TYPE4, byte_val]
  · simp only [GETPROP, SETPROP, fieldMod, TYPE1, TYPE4]
    simp only [if_true, OfNat.ofNat_ne_one, if_false]
    exact load32_store32 _ _ _ _

theorem GETPROP_SETPROP_other (h : Heap) (head type : Nat) (f g : Field) (v : Nat)
    (hfg : f ≠ g) :
    GETPROP (SETPROP h head type f v) head type g = GETPROP h head type g := by
  unfold GETPROP SETPROP
  by_cases h1 : type = TYPE1
  · subst h1
    simp only [TYPE1, TYPE4, if_true, OfNat.one_ne_ofNat, if_false, store_mem]
    rw [if_neg]
    cases f <;> cases g <;> simp [off1] at hfg ⊢
  · by_cases h4 : type = TYPE4
    · subst h4
      simp only [TYPE1, TYPE4, if_true, OfNat.ofNat_ne_one, if_false]
      apply load32_congr
      intro i hi
      apply store32_mem_out
      cases f <;> cases g <;> simp only [off4, ne_eq, not_true_eq_false] at hfg ⊢ <;> omega
    · simp only [h1, h4, if_false]

/-! ## Reading a handle -/

theorem DATA_sub (hd t : Nat) :
    DATA hd t - 2 = hd + HEADSZ t ∧ DATA hd t - 1 = hd + HEADSZ t + 1 ∧
    DATA hd t - sizeof_Attr - HEADSZ t = hd ∧ DATA hd t ≠ 0 := by
  unfold DATA sizeof_Attr
  omega

theorem Hdr.read {h : Heap} {hd t c l : Nat} (H : Hdr h hd t c l) :
    CHECK h (DATA hd t) = true ∧ TYPE h (DATA hd t) = t ∧ HEAD h (DATA hd t) = hd ∧
    stx_cap h (DATA hd t) = c ∧ stx_len h (DATA hd t) = l := by
  obtain ⟨ht, hc, hf, hcap, hlen⟩ := H
  obtain ⟨d2, d1, d0, dn⟩ := DATA_sub hd t
  have hT : TYPE h (DATA hd t) = t := by unfold TYPE FLAGS; rw [d1]; exact hf
  have hC : CHECK h (DATA hd t) = true := by
    unfold CHECK COOKIE; rw [d2, hc]; simp [dn]
  have hH : HEAD h (DATA hd t) = hd := by unfold HEAD; rw [hT]; exact d0
  refine ⟨hC, hT, hH, ?_, ?_⟩
  · unfold stx_cap ACCESS
    rw [hC, hH, hT, ← hcap]
    rcases ht with rfl | rfl <;> simp [GETPROP, TYPE1, TYPE4]
  · unfold stx_len ACCESS
    rw [hC, hH, hT, ← hlen]
    rcases ht with rfl | rfl <;> simp [GETPROP, TYPE1, TYPE4]

theorem Valid.hdr {h : Heap} {s : Nat} (V : Valid h s) :
    Hdr h (HEAD h s) (TYPE h s) (stx_cap h s) (stx_len h s) ∧
    DATA (HEAD h s) (TYPE h s) = s := by
  obtain ⟨hC, ht, hs, -, -, -, -⟩ := V
  have hD : DATA (HEAD h s) (TYPE h s) = s := by
    unfold DATA HEAD; unfold sizeof_Attr at *; omega
  have h2 : s - 2 = HEAD h s + HEADSZ (TYPE h s) := by
    unfold HEAD; unfold sizeof_Attr at *; omega
  have h1 : s - 1 = HEAD h s + HEADSZ (TYPE h s) + 1 := by
    unfold HEAD; unfold sizeof_Attr at *; omega
  unfold CHECK COOKIE at hC
  simp only [Bool.and_eq_true, decide_eq_true_eq] at hC
  refine ⟨⟨ht, ?_, ?_, ?_, ?_⟩, hD⟩
  · rw [← h2]; exact hC.2
  · rw [← h1]; rfl
  · unfold stx_cap ACCESS CHECK COOKIE
    rcases ht with e | e <;> simp [hC, e, GETPROP, TYPE1, TYPE4, MAGIC]
  · unfold stx_len ACCESS CHECK COOKIE
    rcases ht with e | e <;> simp [hC, e, GETPROP, TYPE1, TYPE4, MAGIC]

/-- A heap that agrees with `h` on header and validity record carries the same header. -/
theorem Hdr.congr {h h2 : Heap} {hd hd2 t c l : Nat} (H : Hdr h hd t c l)
    (e : ∀ i, i < HEADSZ t + 2 → h2.mem (hd2 + i) = h.mem (hd + i)) : Hdr h2 hd2 t c l := by
  obtain ⟨ht, hc, hf, hcap, hlen⟩ := H
  refine ⟨ht, ?_, ?_, ?_, ?_⟩
  · rw [e _ (by omega)]; exact hc
  · rw [Nat.add_assoc, e _ (by omega), ← Nat.add_assoc]; exact hf
  · rw [← hcap]; exact GETPROP_congr _ _ _ _ _ _ ht (fun i hi => e i (by omega))
  · rw [← hlen]; exact GETPROP_congr _ _ _ _ _ _ ht (fun i hi => e i (by omega))

/-! ## Construction -/

theorem typeFor_cases (cap : Nat) : typeFor cap = TYPE1 ∨ typeFor cap = TYPE4 := by
  unfold typeFor; split <;> simp

theorem GETPROP_frame (h1 h2 : Heap) (head type : Nat) (f : Field)
    (ht : type = TYPE1 ∨ type = TYPE4)
    (e : ∀ x, head ≤ x → x < head + HEADSZ type → h1.mem x = h2.mem x) :
    GETPROP h1 head type f = GETPROP h2 head type f :=
  GETPROP_congr h1 h2 head head type f ht (fun i hi => e _ (by omega) (by omega))

theorem type_bits (t : Nat) (ht : t = TYPE1 ∨ t = TYPE4) :
    (byte t).val &&& TYPE_MASK = t := by
  rcases ht with rfl | rfl <;> decide

theorem MEMSZ_small (t n : Nat) (ht : t = TYPE1 ∨ t = TYPE4) (hn : n < 2 ^ 32) :
    MEMSZ t n = HEADSZ t + 2 + n + 1 := by
  unfold MEMSZ sizeof_Attr SIZE_MOD
  apply Nat.mod_eq_of_lt
  rcases ht with rfl | rfl <;> simp [HEADSZ, TYPE1, TYPE4] <;> omega

/-- The closing zero of a capacity below `2 ^ 62` is stored where the data pointer and the
capacity add up to. -/
theorem wrap_ATTR (p t n : Nat) (ht : t = TYPE1 ∨ t = TYPE4) (hn : n < 2 ^ 62) :
    wrap p (ATTR p t + sizeof_Attr + n) = ATTR p t + sizeof_Attr + n := by
  apply wrap_small
  · unfold ATTR; omega
  · unfold ATTR sizeof_Attr
    rcases ht with e1 | e1 <;> rw [e1] <;> simp only [HEADSZ_TYPE1, HEADSZ_TYPE4] <;> omega

/-- What `stx_new` leaves behind when the allocator answers a block at `p`. -/
theorem stx_new_spec (h : Heap) (p n : Nat) (hp : p ≠ 0) (hn63 : n < 2 ^ 62) :
    (stx_new h p n).2 = DATA p (typeFor n) ∧
    Hdr (stx_new h p n).1 p (typeFor n) (n % fieldMod (typeFor n)) 0 ∧
    (stx_new h p n).1.mem (DATA p (typeFor n)) = 0 ∧
    (stx_new h p n).1.mem (DATA p (typeFor n) + n) = 0 ∧
    (stx_new h p n).1.blk p = MEMSZ (typeFor n) n ∧
    (∀ x, x < p ∨ DATA p (typeFor n) + n < x → (stx_new h p n).1.mem x = h.mem x) ∧
    (n < 2 ^ 32 → (stx_new h p n).1.oob = h.oob) := by
  have ht := typeFor_cases n
  have hsz := MEMSZ_small (typeFor n) n ht
  have e : (if n ≥ 256 then TYPE4 else TYPE1) = typeFor n := rfl
  have hw := wrap_ATTR p (typeFor n) n ht hn63
  unfold stx_new
  simp only [hp, if_false, e, hw]
  generalize typeFor n = t at ht hsz ⊢
  unfold DATA ATTR sizeof_Attr
  clear e
  refine ⟨rfl, ⟨ht, ?_, ?_, ?_, ?_⟩, ?_, ?_, ?_, ?_, ?_⟩
  · simp only [store_mem, if_true]
    repeat (first | rw [if_pos (by omega)] | rw [if_neg (by omega)])
    rfl
  · simp only [store_mem, if_true]
    repeat (first | rw [if_pos (by omega)] | rw [if_neg (by omega)])
    exact type_bits t ht
  · rw [GETPROP_frame _ (SETPROP (SETPROP (malloc h p (MEMSZ t n)) p t .cap n) p t .len 0) p t
      .cap ht, GETPROP_SETPROP_other _ _ _ _ _ _ (by decide), GETPROP_SETPROP_same _ _ _ _ _ ht]
    intro x h1 h2
    simp only [store_mem]
    repeat (first | rw [if_pos (by omega)] | rw [if_neg (by omega)])
  · rw [GETPROP_frame _ (SETPROP (SETPROP (malloc h p (MEMSZ t n)) p t .cap n) p t .len 0) p t
      .len ht, GETPROP_SETPROP_same _ _ _ _ _ ht]
    · rfl
    intro x h1 h2
    simp only [store_mem]
    repeat (first | rw [if_pos (by omega)] | rw [if_neg (by omega)])
  · simp only [store_mem, if_true]
    by_cases hn : n = 0
    · subst hn; simp
    · repeat (first | rw [if_pos (by omega)] | rw [if_neg (by omega)])
  · simp only [store_mem, if_true]
  · simp only [store_blk, SETPROP_blk]
    rw [malloc_blk _ _ _ hp, if_pos rfl]
  · intro x hx
    simp only [store_mem]
    repeat (first | rw [if_pos (by omega)] | rw [if_neg (by omega)])
    rw [SETPROP_mem_out _ _ _ _ _ _ (by omega), SETPROP_mem_out _ _ _ _ _ _ (by omega), malloc_mem]
  · intro hn
    have hb2 : (malloc h p (MEMSZ t n)).blk p = HEADSZ t + 2 + n + 1 := by
      rw [malloc_blk _ _ _ hp, if_pos rfl, hsz hn]
    rw [store_oob _ _ _ _ (by omega) (by simp only [store_blk, SETPROP_blk, hb2]; omega),
      store_oob _ _ _ _ (by omega) (by simp only [store_blk, SETPROP_blk, hb2]; omega),
      store_oob _ _ _ _ (by omega) (by simp only [store_blk, SETPROP_blk, hb2]; omega),
      store_oob _ _ _ _ (by omega) (by simp only [store_blk, SETPROP_blk, hb2]; omega),
      SETPROP_oob _ _ _ _ _ (by simp only [SETPROP_blk, hb2]; omega),
      SETPROP_oob _ _ _ _ _ (by simp only [hb2]; omega), malloc_oob]

/-! ## Append -/

theorem Hdr.set_len {h : Heap} {hd t c l : Nat} (H : Hdr h hd t c l) (v : Nat) :
    Hdr (SETPROP h hd t .len v) hd t c (v % fieldMod t) := by
  obtain ⟨ht, hc, hf, hcap, hlen⟩ := H
  refine ⟨ht, ?_, ?_, ?_, ?_⟩
  · rw [SETPROP_mem_out _ _ _ _ _ _ (by omega)]; exact hc
  · rw [SETPROP_mem_out _ _ _ _ _ _ (by omega)]; exact hf
  · rw [GETPROP_SETPROP_other _ _ _ _ _ _ (by decide)]; exact hcap
  · exact GETPROP_SETPROP_same _ _ _ _ _ ht

theorem Hdr.set_cap {h : Heap} {hd t c l : Nat} (H : Hdr h hd t c l) (v : Nat) :
    Hdr (SETPROP h hd t .cap v) hd t (v % fieldMod t) l := by
  obtain ⟨ht, hc, hf, hcap, hlen⟩ := H
  refine ⟨ht, ?_, ?_, ?_, ?_⟩
  · rw [SETPROP_mem_out _ _ _ _ _ _ (by omega)]; exact hc
  · rw [SETPROP_mem_out _ _ _ _ _ _ (by omega)]; exact hf
  · exact GETPROP_SETPROP_same _ _ _ _ _ ht
  · rw [GETPROP_SETPROP_other _ _ _ _ _ _ (by decide)]; exact hlen

theorem fieldMod_le (t : Nat) : fieldMod t ≤ 2 ^ 32 := by
  unfold fieldMod; split <;> omega

theorem strlen_le_length (src : List Byte) : strlen src ≤ src.length := by
  induction src with
  | nil => simp [strlen]
  | cons b t ih => unfold strlen; split <;> simp; omega

theorem incOf_le_length (src : List Byte) (n : Nat) : incOf src n ≤ src.length := by
  have := strlen_le_length src
  unfold incOf strnlen; split <;> omega

theorem toIntmax_small (x : Nat) (hx : x < 2 ^ 63) : toIntmax x = x := by
  unfold toIntmax; omega

/-- The append that fits: nothing is allocated, the source bytes land behind the content. -/
theorem append_fits (FAIL : Int) (h : Heap) (hd t c l : Nat) (src : List Byte) (n : Nat)
    (alloc : Bool) (p : Nat) (H : Hdr h hd t c l) (hfit : l + incOf src n ≤ c)
    (r : Heap × Nat × Int) (hr : append FAIL h (DATA hd t) (some src) n alloc p = r) :
    r.2.1 = DATA hd t ∧ r.2.2 = incOf src n ∧
    Hdr r.1 hd t c (l + incOf src n) ∧
    r.1.blk = h.blk ∧
    (∀ i, i < incOf src n → r.1.mem (DATA hd t + l + i) = src.getD i 0) ∧
    r.1.mem (DATA hd t + l + incOf src n) = 0 ∧
    (∀ x, x < hd ∨ hd + HEADSZ t ≤ x → x < DATA hd t + l ∨ DATA hd t + l + incOf src n < x →
      r.1.mem x = h.mem x) ∧
    (HEADSZ t + 2 + c + 1 ≤ h.blk hd → r.1.oob = h.oob) := by
  obtain ⟨hC, hT, hH, -, -⟩ := H.read
  have hc := H.2.2.2.1
  have hl := H.2.2.2.2
  have ht := H.1
  have hlt := GETPROP_lt h hd t .cap
  have hm := fieldMod_le t
  have e : (if n ≠ 0 then strnlen src n else strlen src) = incOf src n := rfl
  have hmod : (l + incOf src n) % SIZE_MOD = l + incOf src n := by
    apply Nat.mod_eq_of_lt; unfold SIZE_MOD; omega
  subst hr
  unfold append
  simp only [hC, hT, hH, hc, hl, e, hmod, Bool.not_true, Bool.false_eq_true, if_false,
    gt_iff_lt, Nat.not_lt.mpr hfit]
  have hdata : DATA hd t = hd + HEADSZ t + 2 := rfl
  have hH2 : Hdr (store (memcpy_text h hd (DATA hd t + l) src (incOf src n)) hd
      (DATA hd t + l + incOf src n) 0) hd t c l := by
    apply H.congr
    intro i hi
    simp only [store_mem, memcpy_text_mem]
    repeat (first | rw [if_pos (by omega)] | rw [if_neg (by omega)])
  refine ⟨trivial, ?_, ?_, ?_, ?_, ?_, ?_, ?_⟩
  · apply toIntmax_small; omega
  · have := hH2.set_len (l + incOf src n)
    rwa [Nat.mod_eq_of_lt (by omega)] at this
  · simp only [SETPROP_blk, store_blk, memcpy_text_blk]
  · intro i hi
    rw [SETPROP_mem_out _ _ _ _ _ _ (by omega)]
    simp only [store_mem, memcpy_text_mem]
    rw [if_neg (by omega), if_pos (by omega)]
    congr 1
    omega
  · rw [SETPROP_mem_out _ _ _ _ _ _ (by omega)]
    simp only [store_mem, if_true]
  · intro x hx1 hx2
    rw [SETPROP_mem_out _ _ _ _ _ _ hx1]
    simp only [store_mem, memcpy_text_mem]
    repeat (first | rw [if_pos (by omega)] | rw [if_neg (by omega)])
  · intro hroom
    rw [SETPROP_oob _ _ _ _ _ (by simp only [store_blk, memcpy_text_blk]; omega),
      store_oob _ _ _ _ (by omega) (by simp only [memcpy_text_blk]; omega),
      memcpy_text_oob _ _ _ _ _ (by omega) (by omega)]

theorem getElem?_of_getD (l : List Byte) (i : Nat) (hi : i < l.length) :
    l[i]? = some (l.getD i 0) := by
  simp [List.getD, hi]

theorem toIntmax_negSize (x : Nat) (h0 : 0 < x) (hx : x ≤ 2 ^ 63) :
    toIntmax (negSize x) = -(x : Int) := by
  unfold toIntmax negSize SIZE_MOD
  omega

/-- The append that does not fit and may not grow: nothing is touched. -/
theorem append_nofit (FAIL : Int) (h : Heap) (hd t c l : Nat) (src : List Byte) (n : Nat)
    (p : Nat) (H : Hdr h hd t c l) (hover : c < (l + incOf src n) % SIZE_MOD) :
    append FAIL h (DATA hd t) (some src) n false p =
      (h, DATA hd t, toIntmax (negSize ((l + incOf src n) % SIZE_MOD))) := by
  obtain ⟨hC, hT, hH, -, -⟩ := H.read
  have hc := H.2.2.2.1
  have hl := H.2.2.2.2
  have e : (if n ≠ 0 then strnlen src n else strlen src) = incOf src n := rfl
  unfold append
  simp only [hC, hT, hH, hc, hl, e, Bool.not_true, Bool.false_eq_true, if_false,
    gt_iff_lt, hover, if_true, Bool.not_false]

theorem strlen_replicate (n : Nat) (b : Byte) (hb : b ≠ 0) :
    strlen (List.replicate n b) = n := by
  induction n with
  | zero => rfl
  | succ k ih => rw [List.replicate_succ, strlen, if_neg hb, ih]

theorem lt_fieldMod_typeFor (n : Nat) (hn : n < 2 ^ 32) : n < fieldMod (typeFor n) := by
  unfold fieldMod typeFor TYPE1 TYPE4
  split <;> simp <;> omega

theorem fieldMod_typeFor (n : Nat) (hn : n < 2 ^ 32) : n % fieldMod (typeFor n) = n :=
  Nat.mod_eq_of_lt (lt_fieldMod_typeFor n hn)

theorem incOf_self (src : List Byte) : incOf src (strlen src) = strlen src := by
  unfold incOf strnlen
  split <;> simp

/-! ## Resize -/

@[simp] theorem realloc_mem (h : Heap) (old p sz : Nat) (hp : p ≠ 0) (x : Nat) :
    (realloc h old p sz).mem x =
      if p ≤ x ∧ x < p + min (h.blk old) sz then h.mem (old + (x - p)) else h.mem x := by
  unfold realloc; rw [if_neg hp]

theorem realloc_blk (h : Heap) (old p sz : Nat) (hp : p ≠ 0) :
    (realloc h old p sz).blk p = sz := by
  unfold realloc; rw [if_neg hp]; simp

set_option maxRecDepth 100000 in
theorem flags_retyped (f : Byte) (t : Nat) (ht : t = TYPE1 ∨ t = TYPE4) :
    (byte ((f.val &&& (255 - TYPE_MASK)) ||| t)).val &&& TYPE_MASK = t := by
  rcases ht with rfl | rfl <;> revert f <;> decide

/-- The closing zero of a capacity below `2 ^ 62` is stored where the data pointer and the
capacity add up to. -/
theorem wrap_DATA (p t n : Nat) (ht : t = TYPE1 ∨ t = TYPE4) (hn : n < 2 ^ 62) :
    wrap p (DATA p t + n) = DATA p t + n := by
  exact wrap_ATTR p t n ht hn

theorem Hdr.store_data {h : Heap} {hd t c l : Nat} (H : Hdr h hd t c l) (base a : Nat)
    (b : Byte) (ha : hd + HEADSZ t + 2 ≤ a) : Hdr (store h base a b) hd t c l := by
  apply H.congr
  intro i hi
  rw [store_mem, if_neg (by omega)]

/-- The resize that changes the header width: a fresh block, the content copied over. -/
theorem resize_retype (h : Heap) (hd t c l newcap p : Nat) (H : Hdr h hd t c l)
    (hne : newcap ≠ c) (hp : p ≠ 0) (hty : typeFor newcap ≠ t) (hcap : newcap < 2 ^ 32)
    (r : Heap × Nat × Bool) (hr : resize h (DATA hd t) newcap p = r) :
    r.2.2 = true ∧ r.2.1 = DATA p (typeFor newcap) ∧
    Hdr r.1 p (typeFor newcap) newcap (min l newcap) ∧
    r.1.blk p = MEMSZ (typeFor newcap) newcap ∧
    (∀ i, i ≤ l → i ≠ newcap →
      r.1.mem (DATA p (typeFor newcap) + i) = h.mem (DATA hd t + i)) ∧
    r.1.mem (DATA p (typeFor newcap) + newcap) = 0 ∧
    (l ≤ newcap → r.1.oob = h.oob) ∧ (newcap < l → r.1.oob = true) := by
  obtain ⟨hC, hT, hH, -, -⟩ := H.read
  have hc := H.2.2.2.1
  have hl := H.2.2.2.2
  have hlt := GETPROP_lt h hd t .len
  have hm := fieldMod_le t
  have e : (if newcap ≥ 256 then TYPE4 else TYPE1) = typeFor newcap := rfl
  have hnt := typeFor_cases newcap
  have hfm := fieldMod_typeFor newcap hcap
  have hfl := lt_fieldMod_typeFor newcap hcap
  have hl1 : (l + 1) % SIZE_MOD = l + 1 := by
    apply Nat.mod_eq_of_lt; unfold SIZE_MOD; omega
  have hw : wrap p (DATA p (typeFor newcap) + newcap) = DATA p (typeFor newcap) + newcap :=
    wrap_DATA p _ newcap hnt (by omega)
  subst hr
  unfold resize
  simp only [hC, hT, hH, hc, hl, e, hne, hp, hty, hl1, hw, Bool.not_true, Bool.false_eq_true,
    if_false, decide_False, Bool.not_false, if_true]
  generalize typeFor newcap = nt at hnt hfm hfl hty ⊢
  obtain ⟨d2, d1, -, -⟩ := DATA_sub p nt
  rw [d2, d1]
  have hdata : ∀ q u, DATA q u = q + HEADSZ u + 2 := fun _ _ => rfl
  -- the header once length, cookie and flags are in place
  have H3 : Hdr
      (store (store (SETPROP (memcpy (malloc h p (MEMSZ nt newcap)) p (DATA p nt) (DATA hd t)
        (l + 1)) p nt .len l) p (p + HEADSZ nt) (byte MAGIC)) p (p + HEADSZ nt + 1)
        (byte ((FLAGS (store (SETPROP (memcpy (malloc h p (MEMSZ nt newcap)) p (DATA p nt)
          (DATA hd t) (l + 1)) p nt .len l) p (p + HEADSZ nt) (byte MAGIC)) (DATA p nt)
          &&& (255 - TYPE_MASK)) ||| nt)))
      p nt
      (GETPROP (SETPROP (memcpy (malloc h p (MEMSZ nt newcap)) p (DATA p nt) (DATA hd t)
        (l + 1)) p nt .len l) p nt .cap)
      (l % fieldMod nt) := by
    refine ⟨hnt, ?_, ?_, ?_, ?_⟩
    · simp only [store_mem, if_true]
      repeat (first | rw [if_pos (by omega)] | rw [if_neg (by omega)])
      rfl
    · simp only [store_mem, if_true]
      exact flags_retyped _ _ hnt
    · apply GETPROP_frame _ _ _ _ _ hnt
      intro x h1 h2
      simp only [store_mem]
      rw [if_neg (by omega), if_neg (by omega)]
    · rw [GETPROP_frame _ (SETPROP (memcpy (malloc h p (MEMSZ nt newcap)) p (DATA p nt)
        (DATA hd t) (l + 1)) p nt .len l) _ _ _ hnt]
      · exact GETPROP_SETPROP_same _ _ _ _ _ hnt
      intro x h1 h2
      simp only [store_mem]
      rw [if_neg (by omega), if_neg (by omega)]
  refine ⟨trivial, trivial, ?_, ?_, ?_, ?_, ?_, ?_⟩
  · have hge : p + HEADSZ nt + 2 ≤ DATA p nt + newcap := by simp only [hdata]; omega
    refine Hdr.store_data ?_ _ _ _ hge
    by_cases hlt2 : newcap < l
    · rw [if_pos hlt2, Nat.min_eq_right (by omega)]
      have := (H3.set_len newcap).set_cap newcap
      rwa [hfm] at this
    · rw [if_neg hlt2, Nat.min_eq_left (by omega)]
      have := H3.set_cap newcap
      rwa [hfm, Nat.mod_eq_of_lt (by omega)] at this
  · simp only [store_blk, SETPROP_blk, apply_ite Heap.blk, ite_self, memcpy_blk]
    rw [malloc_blk _ _ _ hp, if_pos rfl]
  · intro i hi hin
    rw [store_mem, if_neg (by omega), SETPROP_mem_out _ _ _ _ _ _ (by simp only [hdata]; omega)]
    have hcopy : ∀ g : Heap, g.mem (DATA p nt + i) = h.mem (DATA hd t + i) →
        (if newcap < l then SETPROP g p nt .len newcap else g).mem (DATA p nt + i)
          = h.mem (DATA hd t + i) := by
      intro g hg
      split
      · rw [SETPROP_mem_out _ _ _ _ _ _ (by simp only [hdata]; omega)]; exact hg
      · exact hg
    apply hcopy
    simp only [store_mem]
    rw [if_neg (by simp only [hdata]; omega), if_neg (by simp only [hdata]; omega),
      SETPROP_mem_out _ _ _ _ _ _ (by simp only [hdata]; omega), memcpy_mem, if_pos (by omega),
      malloc_mem]
    congr 1
    omega
  · rw [store_mem, if_pos rfl]
  · intro hle
    have hb : (malloc h p (MEMSZ nt newcap)).blk p = HEADSZ nt + 2 + newcap + 1 := by
      rw [malloc_blk _ _ _ hp, if_pos rfl, MEMSZ_small _ _ hnt hcap]
    rw [if_neg (by omega)]
    rw [store_oob _ _ _ _ (by simp only [hdata]; omega)
        (by simp only [store_blk, SETPROP_blk, memcpy_blk, hb, hdata]; omega),
      SETPROP_oob _ _ _ _ _ (by simp only [store_blk, SETPROP_blk, memcpy_blk, hb]; omega),
      store_oob _ _ _ _ (by omega)
        (by simp only [store_blk, SETPROP_blk, memcpy_blk, hb]; omega),
      store_oob _ _ _ _ (by omega)
        (by simp only [store_blk, SETPROP_blk, memcpy_blk, hb]; omega),
      SETPROP_oob _ _ _ _ _ (by simp only [memcpy_blk, hb]; omega),
      memcpy_oob _ _ _ _ _ (by simp only [hdata]; omega) (by simp only [hb, hdata]; omega),
      malloc_oob]
  · intro hlt2
    have hb : (malloc h p (MEMSZ nt newcap)).blk p = HEADSZ nt + 2 + newcap + 1 := by
      rw [malloc_blk _ _ _ hp, if_pos rfl, MEMSZ_small _ _ hnt hcap]
    have hm0 : (memcpy (malloc h p (MEMSZ nt newcap)) p (DATA p nt) (DATA hd t) (l + 1)).oob
        = true := by
      unfold memcpy inblk
      simp only [hb, hdata]
      simp
      right
      omega
    rw [if_pos hlt2]
    exact store_oob_mono _ _ _ _ (SETPROP_oob_mono _ _ _ _ _ (SETPROP_oob_mono _ _ _ _ _
      (store_oob_mono _ _ _ _ (store_oob_mono _ _ _ _ (SETPROP_oob_mono _ _ _ _ _ hm0)))))

/-- The resize that keeps the header width: the block is reallocated. -/
theorem resize_same (h : Heap) (hd t c l newcap p : Nat) (H : Hdr h hd t c l)
    (hroom : HEADSZ t + 2 + c + 1 ≤ h.blk hd)
    (hne : newcap ≠ c) (hp : p ≠ 0) (hty : typeFor newcap = t) (hcap : newcap < 2 ^ 32)
    (r : Heap × Nat × Bool) (hr : resize h (DATA hd t) newcap p = r) :
    r.2.2 = true ∧ r.2.1 = DATA p (typeFor newcap) ∧
    Hdr r.1 p (typeFor newcap) newcap (min l newcap) ∧
    r.1.blk p = MEMSZ (typeFor newcap) newcap ∧
    (∀ i, i ≤ c → i < newcap →
      r.1.mem (DATA p (typeFor newcap) + i) = h.mem (DATA hd t + i)) ∧
    r.1.mem (DATA p (typeFor newcap) + newcap) = 0 ∧
    r.1.oob = h.oob := by
  obtain ⟨hC, hT, hH, -, -⟩ := H.read
  have hc := H.2.2.2.1
  have hl := H.2.2.2.2
  have ht := H.1
  have e : (if newcap ≥ 256 then TYPE4 else TYPE1) = typeFor newcap := rfl
  have hfm := fieldMod_typeFor newcap hcap
  have hsz := MEMSZ_small t newcap ht hcap
  have hw : wrap p (DATA p t + newcap) = DATA p t + newcap :=
    wrap_DATA p _ newcap ht (by omega)
  subst hr
  unfold resize
  simp only [hC, hT, hH, hc, hl, e, hne, hp, hty, hw, Bool.not_true, Bool.false_eq_true,
    if_false, decide_True, if_true]
  rw [hty] at hfm
  have hdata : ∀ q u, DATA q u = q + HEADSZ u + 2 := fun _ _ => rfl
  have H1 : Hdr (realloc h hd p (MEMSZ t newcap)) p t c l := by
    apply H.congr
    intro i hi
    rw [realloc_mem _ _ _ _ hp, if_pos (by omega)]
    congr 1
    omega
  refine ⟨trivial, trivial, ?_, ?_, ?_, ?_, ?_⟩
  · have hge : p + HEADSZ t + 2 ≤ DATA p t + newcap := by simp only [hdata]; omega
    refine Hdr.store_data ?_ _ _ _ hge
    by_cases hlt2 : newcap < l
    · rw [if_pos hlt2, Nat.min_eq_right (by omega)]
      have := (H1.set_len newcap).set_cap newcap
      rwa [hfm] at this
    · rw [if_neg hlt2, Nat.min_eq_left (by omega)]
      have := H1.set_cap newcap
      rwa [hfm] at this
  · simp only [store_blk, SETPROP_blk, apply_ite Heap.blk, ite_self]
    exact realloc_blk _ _ _ _ hp
  · intro i hi hin
    rw [store_mem, if_neg (by omega), SETPROP_mem_out _ _ _ _ _ _ (by simp only [hdata]; omega)]
    have hcopy : ∀ g : Heap, g.mem (DATA p t + i) = h.mem (DATA hd t + i) →
        (if newcap < l then SETPROP g p t .len newcap else g).mem (DATA p t + i)
          = h.mem (DATA hd t + i) := by
      intro g hg
      split
      · rw [SETPROP_mem_out _ _ _ _ _ _ (by simp only [hdata]; omega)]; exact hg
      · exact hg
    apply hcopy
    rw [realloc_mem _ _ _ _ hp, if_pos (by simp only [hdata]; omega)]
    congr 1
    simp only [hdata]
    omega
  · rw [store_mem, if_pos rfl]
  · have hb : (realloc h hd p (MEMSZ t newcap)).blk p = HEADSZ t + 2 + newcap + 1 := by
      rw [realloc_blk _ _ _ _ hp, hsz]
    have hcopy : ∀ g : Heap, g.blk p = HEADSZ t + 2 + newcap + 1 → g.oob = h.oob →
        (if newcap < l then SETPROP g p t .len newcap else g).oob = h.oob ∧
        (if newcap < l then SETPROP g p t .len newcap else g).blk p
          = HEADSZ t + 2 + newcap + 1 := by
      intro g hg1 hg2
      split
      · rw [SETPROP_oob _ _ _ _ _ (by omega), SETPROP_blk]; exact ⟨hg2, hg1⟩
      · exact ⟨hg2, hg1⟩
    obtain ⟨ho, hb2⟩ := hcopy _ hb (realloc_oob _ _ _ _)
    rw [store_oob _ _ _ _ (by simp only [hdata]; omega)
        (by simp only [SETPROP_blk, hb2, hdata]; omega),
      SETPROP_oob _ _ _ _ _ (by omega), ho]

/-- What `resize` does to a handle in good order when the capacity changes and the allocator
answers a block at `p`. -/
theorem resize_spec (h : Heap) (hd t c l newcap p : Nat) (H : Hdr h hd t c l)
    (hlc : l ≤ c) (hroom : HEADSZ t + 2 + c + 1 ≤ h.blk hd)
    (hne : newcap ≠ c) (hp : p ≠ 0) (hcap : newcap < 2 ^ 32)
    (r : Heap × Nat × Bool) (hr : resize h (DATA hd t) newcap p = r) :
    r.2.2 = true ∧ r.2.1 = DATA p (typeFor newcap) ∧
    Hdr r.1 p (typeFor newcap) newcap (min l newcap) ∧
    r.1.blk p = MEMSZ (typeFor newcap) newcap ∧
    (∀ i, i ≤ l → i < newcap →
      r.1.mem (DATA p (typeFor newcap) + i) = h.mem (DATA hd t + i)) ∧
    r.1.mem (DATA p (typeFor newcap) + newcap) = 0 ∧
    (typeFor newcap = t ∨ l ≤ newcap → r.1.oob = h.oob) := by
  by_cases hty : typeFor newcap = t
  · obtain ⟨a, b, c1, d, e, f, g⟩ :=
      resize_same h hd t c l newcap p H hroom hne hp hty hcap r hr
    exact ⟨a, b, c1, d, fun i hi hin => e i (by omega) hin, f, fun _ => g⟩
  · obtain ⟨a, b, c1, d, e, f, g, -⟩ :=
      resize_retype h hd t c l newcap p H hne hp hty hcap r hr
    refine ⟨a, b, c1, d, fun i hi hin => e i hi (by omega), f, ?_⟩
    intro hor
    rcases hor with h1 | h1
    · exact absurd h1 hty
    · exact g h1

/-! ## Duplication -/

theorem memcmp_eq_true (h : Heap) (a b n : Nat)
    (e : ∀ i, i < n → h.mem (a + i) = h.mem (b + i)) : memcmp_eq h a b n = true := by
  induction n with
  | zero => rfl
  | succ k ih =>
    unfold memcmp_eq
    rw [ih (fun i hi => e i (by omega)), e k (by omega)]
    simp

/-- What `dup` leaves behind when the allocator answers a block at `p`. -/
theorem dup_spec (h : Heap) (hd t c l p : Nat) (H : Hdr h hd t c l) (hp : p ≠ 0)
    (r : Heap × Nat) (hr : dup h (DATA hd t) p = r) :
    r.2 = DATA p t ∧ Hdr r.1 p t l l ∧
    (∀ i, i < l → r.1.mem (DATA p t + i) = h.mem (DATA hd t + i)) ∧
    r.1.mem (DATA p t + l) = 0 ∧
    r.1.blk p = HEADSZ t + 2 + l + 1 ∧
    (∀ x, x < p ∨ p + (HEADSZ t + 2 + l + 1) ≤ x → r.1.mem x = h.mem x) ∧
    (∀ b, b ≠ p → r.1.blk b = h.blk b) ∧
    r.1.oob = h.oob := by
  obtain ⟨hC, hT, hH, -, -⟩ := H.read
  have hl := H.2.2.2.2
  have ht := H.1
  have hlt := GETPROP_lt h hd t .len
  have hm := fieldMod_le t
  have hsz := MEMSZ_small t l ht (by omega)
  have hdata : ∀ q u, DATA q u = q + HEADSZ u + 2 := fun _ _ => rfl
  subst hr
  unfold dup
  simp only [hT, hH, hl, hp, if_false, hsz]
  have hb : (malloc h p (HEADSZ t + 2 + l + 1)).blk p = HEADSZ t + 2 + l + 1 := by
    rw [malloc_blk _ _ _ hp, if_pos rfl]
  have H2 : Hdr (memcpy (malloc h p (HEADSZ t + 2 + l + 1)) p p hd (HEADSZ t + 2 + l + 1))
      p t c l := by
    apply H.congr
    intro i hi
    rw [memcpy_mem, if_pos (by omega), malloc_mem]
    congr 1
    omega
  refine ⟨trivial, ?_, ?_, ?_, ?_, ?_, ?_, ?_⟩
  · have hge : p + HEADSZ t + 2 ≤ DATA p t + l := by simp only [hdata]; omega
    refine Hdr.store_data ?_ _ _ _ hge
    have := H2.set_cap l
    rwa [Nat.mod_eq_of_lt (by omega)] at this
  · intro i hi
    rw [store_mem, if_neg (by omega), SETPROP_mem_out _ _ _ _ _ _ (by simp only [hdata]; omega),
      memcpy_mem, if_pos (by simp only [hdata]; omega), malloc_mem]
    congr 1
    simp only [hdata]
    omega
  · rw [store_mem, if_pos rfl]
  · simp only [store_blk, SETPROP_blk, memcpy_blk, hb]
  · intro x hx
    rw [store_mem, if_neg (by simp only [hdata]; omega),
      SETPROP_mem_out _ _ _ _ _ _ (by omega), memcpy_mem, if_neg (by omega), malloc_mem]
  · intro b hbp
    simp only [store_blk, SETPROP_blk, memcpy_blk]
    rw [malloc_blk _ _ _ hp, if_neg hbp]
  · rw [store_oob _ _ _ _ (by simp only [hdata]; omega)
        (by simp only [SETPROP_blk, memcpy_blk, hb, hdata]; omega),
      SETPROP_oob _ _ _ _ _ (by simp only [memcpy_blk, hb]; omega),
      memcpy_oob _ _ _ _ _ (by omega) (by omega), malloc_oob]

theorem Valid.of_hdr {h : Heap} {hd t c l : Nat} (H : Hdr h hd t c l) (hp : hd ≠ 0)
    (hlc : l ≤ c) (hroom : HEADSZ t + 2 + c + 1 ≤ h.blk hd)
    (hterm : h.mem (DATA hd t + l) = 0) (hsent : h.mem (DATA hd t + c) = 0) :
    Valid h (DATA hd t) := by
  obtain ⟨hC, hT, hH, hcap, hlen⟩ := H.read
  unfold Valid
  rw [hC, hT, hH, hcap, hlen]
  refine ⟨rfl, H.1, ?_, hlc, hroom, hterm, hsent⟩
  unfold DATA sizeof_Attr
  omega

/-! ## Formatted append -/

theorem toSize_natCast (x : Nat) (hx : x < 2 ^ 64) : toSize (x : Int) = x := by
  unfold toSize SIZE_MOD
  omega

theorem Hdr.getcap {h : Heap} {hd t c l : Nat} (H : Hdr h hd t c l) (hlc : l ≤ c) :
    GETCAP h hd t = c - l := by
  obtain ⟨ht, -, -, hcap, hlen⟩ := H
  unfold GETCAP
  unfold GETPROP at hcap hlen
  rcases ht with rfl | rfl
  · simp only [TYPE1, TYPE4, OfNat.one_ne_ofNat, if_false] at hcap hlen ⊢
    rw [hcap, hlen]
    have := (h.mem (hd + off1 .cap)).isLt
    unfold toUInt U32_MOD
    omega
  · simp only [TYPE4, if_true] at hcap hlen ⊢
    rw [hcap, hlen]
    have := load32_lt h (hd + off4 .cap)
    unfold U32_MOD
    omega

theorem Hdr.spc {h : Heap} {hd t c l : Nat} (H : Hdr h hd t c l) (hlc : l ≤ c) :
    stx_spc h (DATA hd t) = c - l := by
  obtain ⟨hC, hT, hH, -, -⟩ := H.read
  obtain ⟨ht, -, -, hcap, hlen⟩ := H
  unfold GETPROP at hcap hlen
  unfold stx_spc
  rw [hC, hT, hH]
  rcases ht with rfl | rfl
  · simp only [TYPE1, TYPE4, OfNat.one_ne_ofNat, if_false, if_true, Bool.not_true,
      Bool.false_eq_true] at hcap hlen ⊢
    rw [hcap, hlen]
    have := (h.mem (hd + off1 .cap)).isLt
    unfold toSize SIZE_MOD
    omega
  · simp only [TYPE4, if_true, if_false, Bool.not_true, Bool.false_eq_true] at hcap hlen ⊢
    rw [hcap, hlen]
    have := load32_lt h (hd + off4 .cap)
    unfold U32_MOD
    omega

theorem toInt_negSize (x : Nat) (h0 : 0 < x) (hx : x ≤ 2 ^ 31) :
    toInt (negSize x) = -(x : Int) := by
  unfold toInt negSize SIZE_MOD
  omega

/-- The formatted append whose rendering does not fit: the text is cut at the capacity, the
terminator is put back, and the header is left alone. -/
theorem append_format_nofit (FAIL : Int) (h : Heap) (hd t c l : Nat) (out : List Byte)
    (H : Hdr h hd t c l) (hlc : l < c) (hf : c - l < out.length)
    (hroom : HEADSZ t + 2 + c + 1 ≤ h.blk hd) (hout : out.length < 2 ^ 63)
    (r : Heap × Int) (hr : append_format FAIL h (DATA hd t) (.text out) = r) :
    r.2 = toInt (negSize (l + out.length)) ∧
    Hdr r.1 hd t c l ∧
    (∀ i, i < l → r.1.mem (DATA hd t + i) = h.mem (DATA hd t + i)) ∧
    r.1.mem (DATA hd t + l) = 0 ∧
    r.1.mem (DATA hd t + c) = 0 ∧
    r.1.blk = h.blk ∧
    r.1.oob = h.oob := by
  obtain ⟨hC, hT, hH, -, -⟩ := H.read
  have hc := H.2.2.2.1
  have hl := H.2.2.2.2
  have hlt := GETPROP_lt h hd t .cap
  have hm := fieldMod_le t
  have hg := H.getcap (by omega)
  have hdata : ∀ q u, DATA q u = q + HEADSZ u + 2 := fun _ _ => rfl
  have hs1 : (c - l + 1) % SIZE_MOD = c - l + 1 := by
    apply Nat.mod_eq_of_lt; unfold SIZE_MOD; omega
  have hs2 : (l + out.length) % SIZE_MOD = l + out.length := by
    apply Nat.mod_eq_of_lt; unfold SIZE_MOD; omega
  have hts : toSize (out.length : Int) = out.length := toSize_natCast _ (by omega)
  subst hr
  unfold append_format vsnprintf
  simp only [hT, hH, hl, hg, hs1, hts, hs2, Nat.not_lt_zero, if_false,
    Nat.add_sub_cancel, Nat.min_eq_right (Nat.le_of_lt hf), gt_iff_lt, hf, if_true,
    show c - l ≠ 0 by omega, show c - l + 1 ≠ 0 by omega]
  refine ⟨trivial, ?_, ?_, ?_, ?_, ?_, ?_⟩
  · apply H.congr
    intro i hi
    simp only [store_mem, memcpy_text_mem]
    repeat (first | rw [if_pos (by simp only [hdata]; omega)]
                  | rw [if_neg (by simp only [hdata]; omega)])
  · intro i hi
    simp only [store_mem, memcpy_text_mem]
    repeat (first | rw [if_pos (by omega)] | rw [if_neg (by omega)])
  · simp only [store_mem, if_true]
  · simp only [store_mem, memcpy_text_mem]
    repeat (first | rw [if_pos (by omega)] | rw [if_neg (by omega)])
  · rfl
  · rw [store_oob _ _ _ _ (by simp only [hdata]; omega)
        (by simp only [store_blk, memcpy_text_blk, hdata]; omega),
      store_oob _ _ _ _ (by simp only [hdata]; omega)
        (by simp only [memcpy_text_blk, hdata]; omega),
      memcpy_text_oob _ _ _ _ _ (by simp only [hdata]; omega) (by simp only [hdata]; omega)]

/-! ## Equality -/

theorem memcmp_eq_iff (h : Heap) (a b n : Nat) :
    memcmp_eq h a b n = true ↔ ∀ i, i < n → h.mem (a + i) = h.mem (b + i) := by
  induction n with
  | zero => simp [memcmp_eq]
  | succ k ih =>
    unfold memcmp_eq
    rw [Bool.and_eq_true, ih, decide_eq_true_eq]
    constructor
    · rintro ⟨h1, h2⟩ i hi
      by_cases hik : i = k
      · rw [hik]; exact h2
      · exact h1 i (by omega)
    · intro e
      exact ⟨fun i hi => e i (by omega), e k (by omega)⟩

theorem memcmp_eq_comm (h : Heap) (a b n : Nat) : memcmp_eq h a b n = memcmp_eq h b a n := by
  rw [Bool.eq_iff_iff, memcmp_eq_iff, memcmp_eq_iff]
  exact ⟨fun e i hi => (e i hi).symm, fun e i hi => (e i hi).symm⟩

/-- On a handle that passes the check and whose width bits name a header, `stx_len` reads
the field that `GETPROP` reads. -/
theorem stx_len_eq_GETPROP (h : Heap) (s : Nat) (hC : CHECK h s = true)
    (ht : TYPE h s = TYPE1 ∨ TYPE h s = TYPE4) :
    stx_len h s = GETPROP h (HEAD h s) (TYPE h s) .len := by
  unfold stx_len ACCESS GETPROP
  rw [hC]
  rcases ht with e | e <;> rw [e] <;> simp [TYPE1, TYPE4]

/-! ## Invariants of the constructors -/

theorem Hdr.cookie {h : Heap} {hd t c l : Nat} (H : Hdr h hd t c l) :
    COOKIE h (DATA hd t) = 170 := by
  unfold COOKIE
  rw [(DATA_sub hd t).1]
  exact H.2.1

/-- The data bytes strictly between offsets `0` and `n` are not written by `stx_new`. -/
theorem stx_new_mem_data (h : Heap) (p n x : Nat) (hp : p ≠ 0) (hn : n < 2 ^ 62)
    (h1 : DATA p (typeFor n) < x) (h2 : x ≠ DATA p (typeFor n) + n) :
    (stx_new h p n).1.mem x = h.mem x := by
  have e : (if n ≥ 256 then TYPE4 else TYPE1) = typeFor n := rfl
  have hw := wrap_ATTR p (typeFor n) n (typeFor_cases n) hn
  unfold stx_new
  simp only [hp, if_false, e, hw]
  unfold DATA at h1 h2
  unfold ATTR sizeof_Attr at *
  simp only [store_mem]
  repeat (first | rw [if_pos (by omega)] | rw [if_neg (by omega)])
  rw [SETPROP_mem_out _ _ _ _ _ _ (by omega), SETPROP_mem_out _ _ _ _ _ _ (by omega), malloc_mem]

/-- What `stx_from` leaves behind for a text shorter than `2 ^ 32` bytes. -/
theorem stx_from_hdr (FAIL : Int) (h : Heap) (p : Nat) (src : List Byte) (hp : p ≠ 0)
    (hlen : strlen src < 2 ^ 32) :
    (stx_from FAIL h p src).2 = DATA p (typeFor (strlen src)) ∧
    Hdr (stx_from FAIL h p src).1 p (typeFor (strlen src)) (strlen src) (strlen src) ∧
    (stx_from FAIL h p src).1.mem (DATA p (typeFor (strlen src)) + strlen src) = 0 := by
  obtain ⟨hs, H, -⟩ := stx_new_spec h p (strlen src) hp (by omega)
  rw [fieldMod_typeFor _ hlen] at H
  have e := incOf_self src
  obtain ⟨-, -, r3, -, -, r6, -⟩ :=
    append_fits FAIL _ _ _ _ _ src (strlen src) false 0 H (by rw [e]; omega) _ rfl
  rw [e] at r3 r6
  simp only [Nat.zero_add, Nat.add_zero] at r3 r6
  have hfrom : stx_from FAIL h p src =
      ((append FAIL (stx_new h p (strlen src)).1 (DATA p (typeFor (strlen src))) (some src)
        (strlen src) false 0).1, DATA p (typeFor (strlen src))) := by
    unfold stx_from stx_append_count
    simp only [hs]
  rw [hfrom]
  exact ⟨rfl, r3, r6⟩

/-- A text of `2 ^ 32 + 5` bytes: `stx_from` returns the block as `stx_new` made it, with
capacity 5, and the byte at offset 5 is whatever the heap held there. -/
theorem stx_from_wraps5 (FAIL : Int) (h : Heap) (p : Nat) (src : List Byte) (hp : p ≠ 0)
    (hlen : strlen src = 2 ^ 32 + 5) :
    (stx_from FAIL h p src).2 = p + 10 ∧
    stx_len (stx_from FAIL h p src).1 (p + 10) = 0 ∧
    stx_cap (stx_from FAIL h p src).1 (p + 10) = 5 ∧
    (stx_from FAIL h p src).1.mem (p + 10 + 5) = h.mem (p + 10 + 5) := by
  obtain ⟨hs, H, -⟩ := stx_new_spec h p (strlen src) hp (by omega)
  have e := incOf_self src
  have ht : typeFor (strlen src) = TYPE4 := by rw [hlen]; decide
  have hc : strlen src % fieldMod (typeFor (strlen src)) = 5 := by
    rw [hlen]; decide
  rw [hc] at H
  have key := append_nofit FAIL _ _ _ _ _ src (strlen src) 0 H
    (by rw [e, hlen]; decide)
  have hfrom : stx_from FAIL h p src = ((stx_new h p (strlen src)).1,
      DATA p (typeFor (strlen src))) := by
    unfold stx_from stx_append_count
    simp only [hs, key]
  have hd : DATA p (typeFor (strlen src)) = p + 10 := by rw [ht]; rfl
  obtain ⟨-, -, -, hcap, hl⟩ := H.read
  rw [hfrom]
  rw [hd] at hcap hl
  refine ⟨hd, hl, hcap, ?_⟩
  apply stx_new_mem_data _ _ _ _ hp (by omega)
  · rw [hd]; omega
  · rw [hd, hlen]; omega

/-! ## Reset and release -/

@[simp] theorem bzero_mem (h : Heap) (base dst n x : Nat) :
    (bzero h base dst n).mem x = if dst ≤ x ∧ x < dst + n then 0 else h.mem x := rfl

@[simp] theorem bzero_blk (h : Heap) (base dst n : Nat) : (bzero h base dst n).blk = h.blk := rfl

theorem bzero_oob (h : Heap) (base dst n : Nat) (h1 : base ≤ dst)
    (h2 : dst + n ≤ base + h.blk base) : (bzero h base dst n).oob = h.oob := by
  unfold bzero; simp [inblk_eq_true h base dst n h1 h2]

/-- A handle whose cookie byte is not 170 reads as length, capacity and space 0. -/
theorem access_unchecked (h : Heap) (s : Nat) (hC : CHECK h s = false) :
    stx_len h s = 0 ∧ stx_cap h s = 0 ∧ stx_spc h s = 0 := by
  unfold stx_len stx_cap ACCESS stx_spc
  simp [hC]

/-- What `stx_reset` does to a handle in good order. -/
theorem reset_spec (h : Heap) (hd t c l : Nat) (H : Hdr h hd t c l)
    (hroom : HEADSZ t + 2 + c + 1 ≤ h.blk hd) :
    Hdr (stx_reset h (DATA hd t)) hd t c 0 ∧
    (stx_reset h (DATA hd t)).mem (DATA hd t) = 0 ∧
    (∀ x, x < hd ∨ hd + HEADSZ t ≤ x → x ≠ DATA hd t →
      (stx_reset h (DATA hd t)).mem x = h.mem x) ∧
    (stx_reset h (DATA hd t)).blk = h.blk ∧
    (stx_reset h (DATA hd t)).oob = h.oob := by
  obtain ⟨hC, hT, hH, -, -⟩ := H.read
  have ht := H.1
  have hdata : ∀ q u, DATA q u = q + HEADSZ u + 2 := fun _ _ => rfl
  unfold stx_reset
  simp only [hC, hT, hH, Bool.not_true, Bool.false_eq_true, if_false]
  refine ⟨?_, ?_, ?_, ?_, ?_⟩
  · have hge : hd + HEADSZ t + 2 ≤ DATA hd t := by simp only [hdata]; omega
    refine Hdr.store_data ?_ _ _ _ hge
    have := H.set_len 0
    rwa [Nat.zero_mod] at this
  · rw [store_mem, if_pos rfl]
  · intro x hx hne
    rw [store_mem, if_neg hne, SETPROP_mem_out _ _ _ _ _ _ hx]
  · simp only [store_blk, SETPROP_blk]
  · rw [store_oob _ _ _ _ (by simp only [hdata]; omega)
        (by simp only [SETPROP_blk, hdata]; omega),
      SETPROP_oob _ _ _ _ _ (by omega)]

/-- What `stx_free` does to a handle in good order. -/
theorem free_spec (h : Heap) (hd t c l : Nat) (H : Hdr h hd t c l)
    (hroom : HEADSZ t + 2 + c + 1 ≤ h.blk hd) :
    (∀ i, i < HEADSZ t + 2 → (stx_free h (DATA hd t)).mem (hd + i) = 0) ∧
    (∀ x, x < hd ∨ hd + HEADSZ t + 2 ≤ x → (stx_free h (DATA hd t)).mem x = h.mem x) ∧
    (stx_free h (DATA hd t)).blk hd = 0 ∧
    (stx_free h (DATA hd t)).oob = h.oob := by
  obtain ⟨hC, hT, hH, -, -⟩ := H.read
  unfold stx_free free
  simp only [hC, hT, hH, Bool.not_true, Bool.false_eq_true, if_false]
  rcases H.1 with e | e
  · subst e
    have h2 : HEADSZ TYPE1 = 2 := rfl
    rw [h2] at hroom ⊢
    simp only [TYPE1, TYPE4, OfNat.one_ne_ofNat, if_false, if_true, sizeof_Head1, sizeof_Attr]
    refine ⟨?_, ?_, ?_, ?_⟩
    · intro i hi
      rw [bzero_mem, if_pos (by omega)]
    · intro x hx
      rw [bzero_mem, if_neg (by omega)]
    · simp
    · exact bzero_oob _ _ _ _ (le_refl _) (by omega)
  · subst e
    have h2 : HEADSZ TYPE4 = 8 := rfl
    rw [h2] at hroom ⊢
    simp only [TYPE4, if_true, sizeof_Head4, sizeof_Attr]
    refine ⟨?_, ?_, ?_, ?_⟩
    · intro i hi
      rw [bzero_mem, if_pos (by omega)]
    · intro x hx
      rw [bzero_mem, if_neg (by omega)]
    · simp
    · exact bzero_oob _ _ _ _ (le_refl _) (by omega)

/-! ## Formatted append: no space, engine error -/

/-- With no space left `append_format` returns `STX_FAIL` and touches nothing. -/
theorem append_format_nospace (FAIL : Int) (h : Heap) (hd t c l : Nat) (r : Rendering)
    (H : Hdr h hd t c l) (hlc : l = c) :
    append_format FAIL h (DATA hd t) r = (h, FAIL) := by
  obtain ⟨-, hT, hH, -, -⟩ := H.read
  have hg := H.getcap (le_of_eq hlc)
  unfold append_format
  simp only [hT, hH, hg, hlc, Nat.sub_self, if_true]

/-- When the engine reports an error, `append_format` takes the result for a length of
`2 ^ 64 - 1`: it puts the terminator back and returns minus the sum, cut to an `int`. -/
theorem append_format_error (FAIL : Int) (h : Heap) (hd t c l : Nat)
    (H : Hdr h hd t c l) (hlc : l < c) :
    append_format FAIL h (DATA hd t) .error =
      (store h hd (DATA hd t + l) 0,
        toInt (negSize ((l + (2 ^ 64 - 1)) % SIZE_MOD))) := by
  obtain ⟨-, hT, hH, -, -⟩ := H.read
  have hl := H.2.2.2.2
  have hlt := GETPROP_lt h hd t .cap
  rw [H.2.2.2.1] at hlt
  have hm := fieldMod_le t
  have hg := H.getcap (le_of_lt hlc)
  have hts : toSize (-1) = 2 ^ 64 - 1 := by decide
  unfold append_format vsnprintf
  simp only [hT, hH, hl, hg, hts, Nat.not_lt_zero, if_false, show c - l ≠ 0 by omega,
    gt_iff_lt, show c - l < 2 ^ 64 - 1 by omega, if_true]

/-! ## Growing append that keeps the header width -/

/-- The append that does not fit and may grow, when the capacity `2 * total` selects the
header width that the handle already has. -/
theorem append_grows_same (FAIL : Int) (h : Heap) (hd t c l : Nat) (src : List Byte)
    (n p : Nat) (H : Hdr h hd t c l) (hlc : l ≤ c)
    (hroom : HEADSZ t + 2 + c + 1 ≤ h.blk hd) (hover : c < l + incOf src n)
    (hcap : (l + incOf src n) * 2 < 2 ^ 32) (hty : typeFor ((l + incOf src n) * 2) = t)
    (hp : p ≠ 0) (r : Heap × Nat × Int)
    (hr : append FAIL h (DATA hd t) (some src) n true p = r) :
    r.2.1 = DATA p t ∧ r.2.2 = incOf src n ∧
    Hdr r.1 p t ((l + incOf src n) * 2) (l + incOf src n) ∧
    (∀ i, i < l → r.1.mem (DATA p t + i) = h.mem (DATA hd t + i)) ∧
    (∀ i, i < incOf src n → r.1.mem (DATA p t + l + i) = src.getD i 0) ∧
    r.1.mem (DATA p t + (l + incOf src n)) = 0 ∧
    r.1.mem (DATA p t + (l + incOf src n) * 2) = 0 ∧
    r.1.blk p = HEADSZ t + 2 + (l + incOf src n) * 2 + 1 ∧
    r.1.oob = h.oob := by
  obtain ⟨hC, hT, hH, -, -⟩ := H.read
  have hc := H.2.2.2.1
  have hl := H.2.2.2.2
  have ht := H.1
  have e : (if n ≠ 0 then strnlen src n else strlen src) = incOf src n := rfl
  have hmod : (l + incOf src n) % SIZE_MOD = l + incOf src n := by
    apply Nat.mod_eq_of_lt; unfold SIZE_MOD; omega
  have hmod2 : (l + incOf src n) * 2 % SIZE_MOD = (l + incOf src n) * 2 := by
    apply Nat.mod_eq_of_lt; unfold SIZE_MOD; omega
  have hdata : ∀ q u, DATA q u = q + HEADSZ u + 2 := fun _ _ => rfl
  have R := resize_same h hd t c l ((l + incOf src n) * 2) p H hroom (by omega) hp hty hcap
    _ rfl
  rw [hty] at R
  subst hr
  unfold append
  simp only [hC, hT, hH, hc, hl, e, hmod, hmod2, Bool.not_true, Bool.false_eq_true, if_false,
    gt_iff_lt, hover, if_true]
  generalize resize h (DATA hd t) ((l + incOf src n) * 2) p = R0 at R ⊢
  obtain ⟨R1, R2, R3⟩ := R0
  obtain ⟨q1, q2, q3, q4, q5, q6, q7⟩ := R
  simp only at q1 q2 q3 q4 q5 q6 q7
  subst q1 q2
  simp only
  rw [Nat.min_eq_left (by omega), MEMSZ_small _ _ ht hcap] at *
  obtain ⟨-, -, hH1, -, -⟩ := q3.read
  rw [hH1]
  have H2 : Hdr (store (memcpy_text R1 p (DATA p t + l) src (incOf src n)) p
      (DATA p t + l + incOf src n) 0) p t ((l + incOf src n) * 2) l := by
    apply q3.congr
    intro i hi
    simp only [store_mem, memcpy_text_mem]
    repeat (first | rw [if_pos (by simp only [hdata]; omega)]
                  | rw [if_neg (by simp only [hdata]; omega)])
  refine ⟨trivial, ?_, ?_, ?_, ?_, ?_, ?_, ?_, ?_⟩
  · apply toIntmax_small; omega
  · have := H2.set_len (l + incOf src n)
    have hfm := lt_fieldMod_typeFor _ hcap
    rw [hty] at hfm
    rwa [Nat.mod_eq_of_lt (by omega)] at this
  · intro i hi
    rw [SETPROP_mem_out _ _ _ _ _ _ (by simp only [hdata]; omega)]
    simp only [store_mem, memcpy_text_mem]
    rw [if_neg (by omega), if_neg (by omega)]
    exact q5 i (by omega) (by omega)
  · intro i hi
    rw [SETPROP_mem_out _ _ _ _ _ _ (by simp only [hdata]; omega)]
    simp only [store_mem, memcpy_text_mem]
    rw [if_neg (by omega), if_pos (by omega)]
    congr 1
    omega
  · rw [SETPROP_mem_out _ _ _ _ _ _ (by simp only [hdata]; omega)]
    simp only [store_mem]
    rw [if_pos (by omega)]
  · rw [SETPROP_mem_out _ _ _ _ _ _ (by simp only [hdata]; omega)]
    simp only [store_mem, memcpy_text_mem]
    rw [if_neg (by omega), if_neg (by omega)]
    exact q6
  · simp only [SETPROP_blk, store_blk, memcpy_text_blk]
    exact q4
  · rw [SETPROP_oob _ _ _ _ _ (by simp only [store_blk, memcpy_text_blk, q4]; omega),
      store_oob _ _ _ _ (by simp only [hdata]; omega)
        (by simp only [memcpy_text_blk, q4, hdata]; omega),
      memcpy_text_oob _ _ _ _ _ (by simp only [hdata]; omega)
        (by simp only [q4, hdata]; omega)]
    exact q7

/-! ## The invariant after the mutating functions -/

theorem Inv.from_hdr {h : Heap} {hd t c l : Nat} (H : Hdr h hd t c l) (hlc : l ≤ c)
    (hterm : h.mem (DATA hd t + l) = 0) (hsent : h.mem (DATA hd t + c) = 0) :
    Inv h (DATA hd t) := by
  obtain ⟨-, -, -, hcap, hlen⟩ := H.read
  unfold Inv
  rw [hcap, hlen]
  exact ⟨hlc, hterm, hsent⟩

/-- The invariant after an append that fits, growing entry point or not. -/
theorem append_fits_inv (FAIL : Int) (h : Heap) (hd t c l : Nat) (src : List Byte) (n : Nat)
    (alloc : Bool) (p : Nat) (H : Hdr h hd t c l) (hfit : l + incOf src n ≤ c)
    (hroom : HEADSZ t + 2 + c + 1 ≤ h.blk hd) (hsent : h.mem (DATA hd t + c) = 0) :
    (append FAIL h (DATA hd t) (some src) n alloc p).2.1 = DATA hd t ∧
    Inv (append FAIL h (DATA hd t) (some src) n alloc p).1 (DATA hd t) ∧
    (append FAIL h (DATA hd t) (some src) n alloc p).1.oob = h.oob := by
  obtain ⟨r1, -, r3, -, -, r6, r7, r8⟩ :=
    append_fits FAIL h hd t c l src n alloc p H hfit _ rfl
  have hdata : ∀ q u, DATA q u = q + HEADSZ u + 2 := fun _ _ => rfl
  refine ⟨r1, Inv.from_hdr r3 hfit ?_ ?_, r8 hroom⟩
  · rw [← Nat.add_assoc]; exact r6
  · by_cases hc : c = l + incOf src n
    · rw [hc, ← Nat.add_assoc]; exact r6
    · rw [r7 _ (by simp only [hdata]; omega) (by omega)]; exact hsent

/-- The invariant after `stx_reset`. -/
theorem reset_inv (h : Heap) (hd t c l : Nat) (H : Hdr h hd t c l)
    (hroom : HEADSZ t + 2 + c + 1 ≤ h.blk hd) (hsent : h.mem (DATA hd t + c) = 0) :
    Inv (stx_reset h (DATA hd t)) (DATA hd t) ∧
    (stx_reset h (DATA hd t)).oob = h.oob := by
  obtain ⟨d1, d2, d3, -, d5⟩ := reset_spec h hd t c l H hroom
  have hdata : ∀ q u, DATA q u = q + HEADSZ u + 2 := fun _ _ => rfl
  refine ⟨Inv.from_hdr d1 (Nat.zero_le _) d2 ?_, d5⟩
  by_cases hc : c = 0
  · rw [hc]; exact d2
  · rw [d3 _ (by simp only [hdata]; omega) (by omega)]; exact hsent

/-- The invariant after a resize to a capacity below `2 ^ 32` that keeps the header width or
is at least the length. -/
theorem resize_inv (h : Heap) (hd t c l newcap p : Nat) (H : Hdr h hd t c l)
    (hlc : l ≤ c) (hroom : HEADSZ t + 2 + c + 1 ≤ h.blk hd)
    (hterm : h.mem (DATA hd t + l) = 0) (hsent : h.mem (DATA hd t + c) = 0)
    (hcap : newcap < 2 ^ 32) (hp : newcap = c ∨ p ≠ 0)
    (hok : typeFor newcap = t ∨ l ≤ newcap) :
    (resize h (DATA hd t) newcap p).2.2 = true ∧
    Inv (resize h (DATA hd t) newcap p).1 (resize h (DATA hd t) newcap p).2.1 ∧
    (resize h (DATA hd t) newcap p).1.oob = h.oob := by
  by_cases hne : newcap = c
  · obtain ⟨hC, hT, hH, -, -⟩ := H.read
    have hr : resize h (DATA hd t) newcap p = (h, DATA hd t, true) := by
      unfold resize
      simp only [hC, hT, hH, H.2.2.2.1, hne, Bool.not_true, Bool.false_eq_true, if_false,
        if_true]
    rw [hr]
    exact ⟨rfl, Inv.from_hdr H hlc hterm hsent, rfl⟩
  · have hp2 : p ≠ 0 := by
      rcases hp with e | e
      · exact absurd e hne
      · exact e
    obtain ⟨r1, r2, r3, -, r5, r6, r7⟩ :=
      resize_spec h hd t c l newcap p H hlc hroom hne hp2 hcap _ rfl
    rw [r2]
    refine ⟨r1, Inv.from_hdr r3 (Nat.min_le_right _ _) ?_ r6, r7 hok⟩
    by_cases hln : l < newcap
    · rw [Nat.min_eq_left (by omega), r5 l (le_refl _) hln]; exact hterm
    · rw [Nat.min_eq_right (by omega)]; exact r6

/-! ## Claims -/

/-- C1 (amended).  For every capacity `n` below `2 ^ 32`, on either side of the 256 threshold,
when the allocator answers a block, `stx_new (n)` returns a handle whose length is `0` and
whose capacity is `n`; no store leaves the block. -/
theorem stx_new_len_cap (h : Heap) (p n : Nat) (hp : p ≠ 0) (hn : n < 2 ^ 32) :
    stx_len (stx_new h p n).1 (stx_new h p n).2 = 0 ∧
    stx_cap (stx_new h p n).1 (stx_new h p n).2 = n ∧
    (stx_new h p n).1.oob = h.oob := by
  obtain ⟨hs, H, -, -, -, -, hoob⟩ := stx_new_spec h p n hp (by omega)
  obtain ⟨-, -, -, hcap, hlen⟩ := H.read
  rw [← hs] at hcap hlen
  rw [fieldMod_typeFor n hn] at hcap
  exact ⟨hlen, hcap, hoob hn⟩

theorem stx_new_len_cap_witness :
    ((16 : Nat) ≠ 0 ∧ (300 : Nat) < 2 ^ 32 ∧
      stx_len (stx_new emptyHeap 16 300).1 (stx_new emptyHeap 16 300).2 = 0 ∧
      stx_cap (stx_new emptyHeap 16 300).1 (stx_new emptyHeap 16 300).2 = 300 ∧
      (stx_new emptyHeap 16 300).1.oob = false) ∧
    ((16 : Nat) ≠ 0 ∧ (255 : Nat) < 2 ^ 32 ∧
      stx_len (stx_new emptyHeap 16 255).1 (stx_new emptyHeap 16 255).2 = 0 ∧
      stx_cap (stx_new emptyHeap 16 255).1 (stx_new emptyHeap 16 255).2 = 255 ∧
      (stx_new emptyHeap 16 255).1.oob = false) :=
  ⟨⟨by decide, by decide, stx_new_len_cap emptyHeap 16 300 (by decide) (by decide)⟩,
    ⟨by decide, by decide, stx_new_len_cap emptyHeap 16 255 (by decide) (by decide)⟩⟩

/-- C1 as stated fails at `n = 2 ^ 32`: the allocation succeeds, the handle is not null, and
the capacity read back is `0`. -/
theorem stx_new_cap_wraps :
    (stx_new emptyHeap 16 4294967296).2 ≠ 0 ∧
    stx_cap (stx_new emptyHeap 16 4294967296).1 (stx_new emptyHeap 16 4294967296).2 = 0 ∧
    stx_cap (stx_new emptyHeap 16 4294967296).1 (stx_new emptyHeap 16 4294967296).2
      ≠ 4294967296 := by
  decide

/-- At the largest capacity the size of the block wraps to 10 bytes, and the address of the
closing zero wraps with it: the zero lands on the flags.  The handle comes back with the
cookie in place and the width bits 0, and `stx_len` and `stx_cap` answer 0. -/
theorem stx_new_largest :
    MEMSZ TYPE4 18446744073709551615 = 10 ∧
    (stx_new emptyHeap 16 18446744073709551615).2 = 26 ∧
    (stx_new emptyHeap 16 18446744073709551615).1.blk 16 = 10 ∧
    stx_check (stx_new emptyHeap 16 18446744073709551615).1 26 = true ∧
    FLAGS (stx_new emptyHeap 16 18446744073709551615).1 26 = 0 ∧
    stx_len (stx_new emptyHeap 16 18446744073709551615).1 26 = 0 ∧
    stx_cap (stx_new emptyHeap 16 18446744073709551615).1 26 = 0 ∧
    ¬ WidthOk (stx_new emptyHeap 16 18446744073709551615).1 26 := by
  decide

/-- C2 (amended).  For a text shorter than `2 ^ 32` bytes, and a successful allocation,
`stx_from` returns a handle that passes the check, with length and capacity equal to the
length of the text, holding the bytes of the text followed by a zero byte; no store leaves
the block. -/
theorem stx_from_spec (FAIL : Int) (h : Heap) (p : Nat) (src : List Byte) (hp : p ≠ 0)
    (hlen : strlen src < 2 ^ 32) :
    (stx_from FAIL h p src).2 ≠ 0 ∧
    stx_check (stx_from FAIL h p src).1 (stx_from FAIL h p src).2 = true ∧
    stx_len (stx_from FAIL h p src).1 (stx_from FAIL h p src).2 = strlen src ∧
    stx_cap (stx_from FAIL h p src).1 (stx_from FAIL h p src).2 = strlen src ∧
    (∀ i, i < strlen src →
      src[i]? = some ((stx_from FAIL h p src).1.mem ((stx_from FAIL h p src).2 + i))) ∧
    (stx_from FAIL h p src).1.mem ((stx_from FAIL h p src).2 + strlen src) = 0 ∧
    (stx_from FAIL h p src).1.oob = h.oob := by
  obtain ⟨hs, H, -, -, hblk, -, hoob⟩ := stx_new_spec h p (strlen src) hp (by omega)
  rw [fieldMod_typeFor _ hlen] at H
  rw [MEMSZ_small _ _ (typeFor_cases _) hlen] at hblk
  have e := incOf_self src
  obtain ⟨-, -, r3, -, r5, r6, -, r8⟩ :=
    append_fits FAIL _ _ _ _ _ src (strlen src) false 0 H (by rw [e]; omega) _ rfl
  have r8 := (r8 (by omega)).trans (hoob hlen)
  rw [e] at r3 r5 r6
  simp only [Nat.zero_add, Nat.add_zero] at r3 r5 r6
  obtain ⟨hC, -, -, hcap, hl⟩ := r3.read
  have hfrom : stx_from FAIL h p src =
      ((append FAIL (stx_new h p (strlen src)).1 (DATA p (typeFor (strlen src))) (some src)
        (strlen src) false 0).1, DATA p (typeFor (strlen src))) := by
    unfold stx_from stx_append_count
    simp only [hs]
  rw [hfrom]
  refine ⟨(DATA_sub _ _).2.2.2, hC, hl, hcap, ?_, r6, r8⟩
  intro i hi
  have hlen := strlen_le_length src
  rw [getElem?_of_getD src i (by omega)]
  exact congrArg some (r5 i hi).symm

theorem stx_from_spec_witness :
    (16 : Nat) ≠ 0 ∧ strlen [104, 101, 108, 108, 111] < 2 ^ 32 ∧
    stx_len (stx_from 0 emptyHeap 16 [104, 101, 108, 108, 111]).1
      (stx_from 0 emptyHeap 16 [104, 101, 108, 108, 111]).2 = 5 ∧
    stx_cap (stx_from 0 emptyHeap 16 [104, 101, 108, 108, 111]).1
      (stx_from 0 emptyHeap 16 [104, 101, 108, 108, 111]).2 = 5 ∧
    (List.range 6).map (fun i => (stx_from 0 emptyHeap 16 [104, 101, 108, 108, 111]).1.mem
      ((stx_from 0 emptyHeap 16 [104, 101, 108, 108, 111]).2 + i))
      = [104, 101, 108, 108, 111, 0] := by
  have w := stx_from_spec 0 emptyHeap 16 [104, 101, 108, 108, 111] (by decide) (by decide)
  exact ⟨by decide, by decide, w.2.2.1, w.2.2.2.1, by decide⟩

/-- A text of `2 ^ 32` bytes defeats `stx_from`: whatever the text, the handle comes back
with length `0`. -/
theorem stx_from_wraps (FAIL : Int) (h : Heap) (p : Nat) (src : List Byte) (hp : p ≠ 0)
    (hlen : strlen src = 2 ^ 32) :
    stx_len (stx_from FAIL h p src).1 (stx_from FAIL h p src).2 = 0 := by
  obtain ⟨hs, H, -⟩ := stx_new_spec h p (strlen src) hp (by omega)
  have e := incOf_self src
  have hc : strlen src % fieldMod (typeFor (strlen src)) = 0 := by
    rw [hlen]; decide
  rw [hc] at H
  have key := append_nofit FAIL _ _ _ _ _ src (strlen src) 0 H
    (by rw [e, hlen]; decide)
  have hfrom : stx_from FAIL h p src = ((stx_new h p (strlen src)).1,
      DATA p (typeFor (strlen src))) := by
    unfold stx_from stx_append_count
    simp only [hs, key]
  rw [hfrom]
  exact H.read.2.2.2.2

/-- C2 as stated fails for a text of `2 ^ 32` bytes `a`: the allocation succeeds and the
length of the handle returned is `0`, not the length of the text. -/
theorem stx_from_long_text :
    strlen (List.replicate 4294967296 (97 : Byte)) = 4294967296 ∧
    stx_len (stx_from 0 emptyHeap 16 (List.replicate 4294967296 97)).1
      (stx_from 0 emptyHeap 16 (List.replicate 4294967296 97)).2 = 0 ∧
    stx_len (stx_from 0 emptyHeap 16 (List.replicate 4294967296 97)).1
      (stx_from 0 emptyHeap 16 (List.replicate 4294967296 97)).2
      ≠ strlen (List.replicate 4294967296 (97 : Byte)) := by
  have hl : strlen (List.replicate 4294967296 (97 : Byte)) = 4294967296 :=
    strlen_replicate _ _ (by decide)
  have h0 := stx_from_wraps 0 emptyHeap 16 (List.replicate 4294967296 97) (by decide) hl
  refine ⟨hl, h0, ?_⟩
  rw [h0, hl]
  decide

/-- C3.  On a valid handle whose length plus the source length exceeds the capacity, the
non-growing `stx_append` returns minus the needed total (which `intmax_t` can hold) and leaves
the heap as it was: length, capacity and every data byte are unchanged. -/
theorem stx_append_overflow (FAIL : Int) (h : Heap) (s : Nat) (src : List Byte)
    (V : Valid h s) (hover : stx_len h s + strlen src > stx_cap h s)
    (hrep : stx_len h s + strlen src ≤ 2 ^ 63) :
    (stx_append FAIL h s (some src)).2 = -((stx_len h s + strlen src : Nat) : Int) ∧
    (stx_append FAIL h s (some src)).1 = h ∧
    stx_len (stx_append FAIL h s (some src)).1 s = stx_len h s ∧
    stx_cap (stx_append FAIL h s (some src)).1 s = stx_cap h s ∧
    (∀ i, (stx_append FAIL h s (some src)).1.mem (s + i) = h.mem (s + i)) := by
  obtain ⟨H, hs⟩ := V.hdr
  have e : incOf src 0 = strlen src := rfl
  have hmod : (stx_len h s + incOf src 0) % SIZE_MOD = stx_len h s + strlen src := by
    rw [e]; apply Nat.mod_eq_of_lt; unfold SIZE_MOD; omega
  have key := append_nofit FAIL h _ _ _ _ src 0 0 H (by rw [hmod]; omega)
  rw [hs, hmod] at key
  have h1 : (stx_append FAIL h s (some src)).1 = h := by
    unfold stx_append; rw [key]
  have h2 : (stx_append FAIL h s (some src)).2 = -((stx_len h s + strlen src : Nat) : Int) := by
    unfold stx_append; rw [key]
    exact toIntmax_negSize _ (by omega) hrep
  rw [h1]
  exact ⟨h2, rfl, rfl, rfl, fun _ => rfl⟩

theorem stx_append_overflow_witness :
    Valid heapAb 20 ∧ stx_len heapAb 20 = 2 ∧ stx_cap heapAb 20 = 4 ∧
    (stx_append 0 heapAb 20 (some [99, 100, 101, 102, 103])).2 = -7 ∧
    stx_len (stx_append 0 heapAb 20 (some [99, 100, 101, 102, 103])).1 20 = 2 ∧
    (stx_append 0 heapAb 20 (some [99, 100, 101, 102, 103])).1.mem 20 = 97 ∧
    (stx_append 0 heapAb 20 (some [99, 100, 101, 102, 103])).1.mem 21 = 98 ∧
    (stx_append 0 heapAb 20 (some [99, 100, 101, 102, 103])).1.mem 22 = 0 := by
  have V : Valid heapAb 20 := by decide
  have w := stx_append_overflow 0 heapAb 20 [99, 100, 101, 102, 103] V (by decide) (by decide)
  obtain ⟨w1, w2, -⟩ := w
  rw [w2]
  refine ⟨V, by decide, by decide, ?_, by decide, by decide, by decide, by decide⟩
  rw [w1]
  decide

/-- C4.  On a valid handle with room for the source, `stx_append` returns the source length,
raises the length by it, keeps the capacity and the old content, and puts the source bytes
and a zero byte behind the old content; no store leaves the block. -/
theorem stx_append_fits (FAIL : Int) (h : Heap) (s : Nat) (src : List Byte)
    (V : Valid h s) (hfit : stx_len h s + strlen src ≤ stx_cap h s) :
    (stx_append FAIL h s (some src)).2 = (strlen src : Int) ∧
    stx_len (stx_append FAIL h s (some src)).1 s = stx_len h s + strlen src ∧
    stx_cap (stx_append FAIL h s (some src)).1 s = stx_cap h s ∧
    (∀ i, i < stx_len h s → (stx_append FAIL h s (some src)).1.mem (s + i) = h.mem (s + i)) ∧
    (∀ i, i < strlen src →
      src[i]? = some ((stx_append FAIL h s (some src)).1.mem (s + stx_len h s + i))) ∧
    (stx_append FAIL h s (some src)).1.mem (s + stx_len h s + strlen src) = 0 ∧
    (stx_append FAIL h s (some src)).1.oob = h.oob := by
  obtain ⟨H, hs⟩ := V.hdr
  have hroom : HEADSZ (TYPE h s) + 2 + stx_cap h s + 1 ≤ h.blk (HEAD h s) := V.2.2.2.2.1
  have e : incOf src 0 = strlen src := rfl
  obtain ⟨-, r2, r3, -, r5, r6, r7, r8⟩ :=
    append_fits FAIL h _ _ _ _ src 0 false 0 H (by rw [e]; exact hfit) _ rfl
  rw [hs, e] at r2 r5 r6 r7
  rw [e] at r3
  obtain ⟨-, -, -, hcap, hlen⟩ := r3.read
  rw [hs] at hcap hlen
  have hsz : s = HEAD h s + HEADSZ (TYPE h s) + 2 := hs.symm
  have r8 := r8 hroom
  rw [hs] at r8
  refine ⟨r2, hlen, hcap, ?_, ?_, r6, r8⟩
  · intro i hi
    exact r7 _ (by omega) (by omega)
  · intro i hi
    have hlen := strlen_le_length src
    rw [getElem?_of_getD src i (by omega)]
    exact congrArg some (r5 i hi).symm

theorem stx_append_fits_witness :
    Valid (stx_new emptyHeap 16 4).1 20 ∧
    (stx_append 0 (stx_new emptyHeap 16 4).1 20 (some [97, 98])).2 = 2 ∧
    stx_len heapAb 20 = 2 ∧ stx_cap heapAb 20 = 4 ∧
    heapAb.mem 20 = 97 ∧ heapAb.mem 21 = 98 ∧ heapAb.mem 22 = 0 := by
  have V : Valid (stx_new emptyHeap 16 4).1 20 := by decide
  have w := stx_append_fits 0 (stx_new emptyHeap 16 4).1 20 [97, 98] V (by decide)
  exact ⟨V, w.1, by decide, by decide, by decide, by decide, by decide⟩

set_option maxRecDepth 100000 in
/-- C5 fails where the growth crosses the 256 threshold.  An empty narrow handle made by
`stx_new (0)` receives 128 bytes through `stx_append_alloc`; the block is resized to the
capacity 256, with a wide header, and the length is then stored with the narrow layout: the
call returns 128, and the handle written back has length 0 and capacity 32768, where the
claim has length 128 and capacity 256. -/
theorem stx_append_alloc_crossing :
    Valid (stx_new emptyHeap 16 0).1 20 ∧
    TYPE (stx_new emptyHeap 16 0).1 20 = TYPE1 ∧
    strlen (List.replicate 128 (97 : Byte)) = 128 ∧
    (stx_append_alloc 0 (stx_new emptyHeap 16 0).1 20
      (some (List.replicate 128 97)) 1000).2.2 = 128 ∧
    (stx_append_alloc 0 (stx_new emptyHeap 16 0).1 20
      (some (List.replicate 128 97)) 1000).2.1 = 1010 ∧
    stx_check (stx_append_alloc 0 (stx_new emptyHeap 16 0).1 20
      (some (List.replicate 128 97)) 1000).1 1010 = true ∧
    TYPE (stx_append_alloc 0 (stx_new emptyHeap 16 0).1 20
      (some (List.replicate 128 97)) 1000).1 1010 = TYPE4 ∧
    stx_len (stx_append_alloc 0 (stx_new emptyHeap 16 0).1 20
      (some (List.replicate 128 97)) 1000).1 1010 = 0 ∧
    stx_cap (stx_append_alloc 0 (stx_new emptyHeap 16 0).1 20
      (some (List.replicate 128 97)) 1000).1 1010 = 32768 := by
  decide

/-- C6 fails as soon as the handle is not empty.  On the handle of capacity 4 that holds
"ab", a formatted append that renders "cd" returns 2 and leaves "abcd" and a zero byte in
the data, but the stored length is 2, the length of the rendering, where the claim has
2 + 2 = 4. -/
theorem stx_append_format_length :
    Valid heapAb 20 ∧ stx_len heapAb 20 = 2 ∧ stx_spc heapAb 20 = 2 ∧
    (stx_append_format 0 heapAb 20 (.text [99, 100])).2 = 2 ∧
    (List.range 5).map (fun i => (stx_append_format 0 heapAb 20 (.text [99, 100])).1.mem
      (20 + i)) = [97, 98, 99, 100, 0] ∧
    stx_len (stx_append_format 0 heapAb 20 (.text [99, 100])).1 20 = 2 ∧
    stx_len (stx_append_format 0 heapAb 20 (.text [99, 100])).1 20 ≠ 2 + 2 := by
  decide

/-- C7 as stated fails once length plus rendering exceed `2 ^ 31`.  The handle 26 is valid,
with length `2 ^ 31` and one byte of space; a rendering of two bytes does not fit, and
`stx_append_format`, whose result is an `int`, returns `2 ^ 31 - 2`, not `-(2 ^ 31 + 2)`. -/
theorem stx_append_format_int_wraps :
    Valid heapHuge 26 ∧ stx_len heapHuge 26 = 2147483648 ∧ stx_spc heapHuge 26 = 1 ∧
    (stx_append_format 0 heapHuge 26 (.text [98, 99])).2 = 2147483646 ∧
    (stx_append_format 0 heapHuge 26 (.text [98, 99])).2 ≠ -(2147483648 + 2) := by
  decide

/-- C7 (amended).  On a valid handle with space left, when the rendering is longer than the
space and length plus rendering do not exceed `2 ^ 31`, `stx_append_format` returns minus
that sum; length and capacity are unchanged, the content is unchanged, the bytes at offsets
length and capacity are zero, and no store leaves the block. -/
theorem stx_append_format_truncated (FAIL : Int) (h : Heap) (s : Nat) (out : List Byte)
    (V : Valid h s) (hspc : 0 < stx_spc h s) (hf : stx_spc h s < out.length)
    (hrep : stx_len h s + out.length ≤ 2 ^ 31) :
    (stx_append_format FAIL h s (.text out)).2 = -((stx_len h s + out.length : Nat) : Int) ∧
    stx_len (stx_append_format FAIL h s (.text out)).1 s = stx_len h s ∧
    stx_cap (stx_append_format FAIL h s (.text out)).1 s = stx_cap h s ∧
    (∀ i, i < stx_len h s →
      (stx_append_format FAIL h s (.text out)).1.mem (s + i) = h.mem (s + i)) ∧
    (stx_append_format FAIL h s (.text out)).1.mem (s + stx_len h s) = 0 ∧
    (stx_append_format FAIL h s (.text out)).1.mem (s + stx_cap h s) = 0 ∧
    (stx_append_format FAIL h s (.text out)).1.oob = h.oob := by
  obtain ⟨H, hs⟩ := V.hdr
  have hC : CHECK h s = true := V.1
  have hlc : stx_len h s ≤ stx_cap h s := V.2.2.2.1
  have hroom : HEADSZ (TYPE h s) + 2 + stx_cap h s + 1 ≤ h.blk (HEAD h s) := V.2.2.2.2.1
  have hsp := H.spc hlc
  rw [hs] at hsp
  rw [hsp] at hspc hf
  have D := append_format_nofit FAIL h _ _ _ _ out H (by omega) hf hroom (by omega) _ rfl
  rw [hs] at D
  obtain ⟨r1, r2, r3, r4, r5, -, r7⟩ := D
  obtain ⟨-, -, -, hcap, hlen⟩ := r2.read
  rw [hs] at hcap hlen
  have e : stx_append_format FAIL h s (.text out) = append_format FAIL h s (.text out) := by
    unfold stx_append_format; rw [hC]; rfl
  rw [e]
  refine ⟨?_, hlen, hcap, r3, r4, r5, r7⟩
  rw [r1]
  exact toInt_negSize _ (by omega) hrep

theorem stx_append_format_truncated_witness :
    Valid heapAb 20 ∧ 0 < stx_spc heapAb 20 ∧ stx_spc heapAb 20 < [99, 100, 101].length ∧
    (stx_append_format 0 heapAb 20 (.text [99, 100, 101])).2 = -5 ∧
    stx_len (stx_append_format 0 heapAb 20 (.text [99, 100, 101])).1 20 = 2 ∧
    (List.range 5).map (fun i => (stx_append_format 0 heapAb 20 (.text [99, 100, 101])).1.mem
      (20 + i)) = [97, 98, 0, 100, 0] := by
  have V : Valid heapAb 20 := by decide
  have w := stx_append_format_truncated 0 heapAb 20 [99, 100, 101] V (by decide) (by decide)
    (by decide)
  refine ⟨V, by decide, by decide, ?_, ?_, by decide⟩
  · rw [w.1]; decide
  · rw [w.2.1]; decide

/-- The shrink across the widths at work.  On a wide handle of length 12, `stx_resize` to
capacity 4 obtains a block of 9 bytes, 5 of them for data, and copies 13 bytes into it before
it truncates.  It returns `true`, and length and capacity read 4; the copy has stored outside
the block: the byte "l" lands 11 bytes behind the new handle, 6 bytes past the end of the
block. -/
theorem stx_resize_shrink_overruns :
    Valid heapWide 26 ∧ TYPE heapWide 26 = TYPE4 ∧ stx_len heapWide 26 = 12 ∧
    stx_cap heapWide 26 = 300 ∧ heapWide.oob = false ∧
    (stx_resize heapWide 26 4 1000).2.2 = true ∧
    (stx_resize heapWide 26 4 1000).2.1 = 1004 ∧
    stx_len (stx_resize heapWide 26 4 1000).1 1004 = 4 ∧
    stx_cap (stx_resize heapWide 26 4 1000).1 1004 = 4 ∧
    (stx_resize heapWide 26 4 1000).1.blk 1000 = 9 ∧
    (stx_resize heapWide 26 4 1000).1.mem (1004 + 11) = 108 ∧
    (stx_resize heapWide 26 4 1000).1.oob = true := by
  decide

/-- A resize to the largest capacity keeps the wide header and reallocates the block to 10
bytes; the closing zero lands on the flags, and the handle left behind reads length and
capacity 0. -/
theorem stx_resize_largest :
    Valid heapWide 26 ∧ stx_len heapWide 26 = 12 ∧
    (stx_resize heapWide 26 18446744073709551615 16).2.2 = true ∧
    (stx_resize heapWide 26 18446744073709551615 16).2.1 = 26 ∧
    (stx_resize heapWide 26 18446744073709551615 16).1.blk 16 = 10 ∧
    stx_check (stx_resize heapWide 26 18446744073709551615 16).1 26 = true ∧
    FLAGS (stx_resize heapWide 26 18446744073709551615 16).1 26 = 0 ∧
    stx_len (stx_resize heapWide 26 18446744073709551615 16).1 26 = 0 ∧
    stx_cap (stx_resize heapWide 26 18446744073709551615 16).1 26 = 0 := by
  decide

/-- C9 as stated fails when the new capacity equals the current one.  The handle 1010 is
valid and wide, with length and capacity 3; the capacity 3 selects the narrow header, yet
`stx_resize` to 3 returns `true` at once and the width bits still name the wide header. -/
theorem stx_resize_same_cap_keeps_width :
    Valid heapDup 1010 ∧ stx_len heapDup 1010 ≤ 3 ∧ 3 < 2 ^ 32 ∧
    typeFor 3 ≠ TYPE heapDup 1010 ∧
    (stx_resize heapDup 1010 3 2000).2.2 = true ∧
    TYPE (stx_resize heapDup 1010 3 2000).1 (stx_resize heapDup 1010 3 2000).2.1
      ≠ typeFor 3 := by
  decide

/-- C9 (amended).  On a valid handle, a resize to a capacity `c` that is at least the length,
below `2 ^ 32` and different from the current capacity returns `true` when the allocator
answers a block, in particular when `c` selects the other header width; the handle written
back has the cookie 170, passes the check, has width bits naming the width that `c` selects,
the old length, capacity `c`, the old content followed by a zero byte, and a zero byte at
offset `c`; no store leaves the block. -/
theorem stx_resize_retypes (h : Heap) (s c p : Nat) (V : Valid h s)
    (hlen : stx_len h s ≤ c) (hc : c < 2 ^ 32) (hne : c ≠ stx_cap h s) (hp : p ≠ 0) :
    (stx_resize h s c p).2.2 = true ∧
    COOKIE (stx_resize h s c p).1 (stx_resize h s c p).2.1 = 170 ∧
    stx_check (stx_resize h s c p).1 (stx_resize h s c p).2.1 = true ∧
    TYPE (stx_resize h s c p).1 (stx_resize h s c p).2.1 = typeFor c ∧
    stx_len (stx_resize h s c p).1 (stx_resize h s c p).2.1 = stx_len h s ∧
    stx_cap (stx_resize h s c p).1 (stx_resize h s c p).2.1 = c ∧
    (∀ i, i < stx_len h s →
      (stx_resize h s c p).1.mem ((stx_resize h s c p).2.1 + i) = h.mem (s + i)) ∧
    (stx_resize h s c p).1.mem ((stx_resize h s c p).2.1 + stx_len h s) = 0 ∧
    (stx_resize h s c p).1.mem ((stx_resize h s c p).2.1 + c) = 0 ∧
    (stx_resize h s c p).1.oob = h.oob := by
  obtain ⟨H, hs⟩ := V.hdr
  have hlc : stx_len h s ≤ stx_cap h s := V.2.2.2.1
  have hroom : HEADSZ (TYPE h s) + 2 + stx_cap h s + 1 ≤ h.blk (HEAD h s) := V.2.2.2.2.1
  have hterm : h.mem (s + stx_len h s) = 0 := V.2.2.2.2.2.1
  obtain ⟨r1, r2, r3, -, r5, r6, r7⟩ :=
    resize_spec h _ _ _ _ c p H hlc hroom hne hp hc _ rfl
  rw [hs] at r1 r2 r3 r5 r6 r7
  rw [Nat.min_eq_left hlen] at r3
  obtain ⟨hC, hT, -, hcap, hl⟩ := r3.read
  have hck : COOKIE (stx_resize h s c p).1 (DATA p (typeFor c)) = 170 := by
    have := r3.2.1
    unfold COOKIE
    rw [(DATA_sub p (typeFor c)).1]
    exact this
  unfold stx_resize at hck ⊢
  rw [r2]
  refine ⟨r1, hck, hC, hT, hl, hcap, fun i hi => r5 i (by omega) (by omega), ?_, r6,
    r7 (Or.inr hlen)⟩
  by_cases hcl : stx_len h s = c
  · rw [hcl]; exact r6
  · rw [r5 _ (le_refl _) (by omega)]; exact hterm

theorem stx_resize_retypes_witness :
    Valid heapAb 20 ∧ stx_len heapAb 20 ≤ 300 ∧ typeFor 300 ≠ TYPE heapAb 20 ∧
    300 ≠ stx_cap heapAb 20 ∧
    TYPE (stx_resize heapAb 20 300 1000).1 (stx_resize heapAb 20 300 1000).2.1 = TYPE4 ∧
    stx_len (stx_resize heapAb 20 300 1000).1 (stx_resize heapAb 20 300 1000).2.1 = 2 ∧
    stx_cap (stx_resize heapAb 20 300 1000).1 (stx_resize heapAb 20 300 1000).2.1 = 300 ∧
    (stx_resize heapAb 20 300 1000).1.mem ((stx_resize heapAb 20 300 1000).2.1 + 1) = 98 := by
  have V : Valid heapAb 20 := by decide
  have w := stx_resize_retypes heapAb 20 300 1000 V (by decide) (by decide) (by decide)
    (by decide)
  refine ⟨V, by decide, by decide, by decide, w.2.2.2.1, ?_, w.2.2.2.2.2.1, by decide⟩
  rw [w.2.2.2.2.1]
  decide

/-- C10.  On a valid handle `s`, when the allocator answers a block that lies apart from the
block of `s`, `stx_dup` returns a valid handle other than `s`, with capacity and length
equal to the length of `s`, holding the content of `s` followed by a zero byte, and equal to
`s` for `stx_equal`; the block of `s`, its length and its capacity are unchanged and no store
leaves the new block.  On a handle that fails the check `stx_dup` returns the null handle. -/
theorem stx_dup_compacts (h : Heap) (s p : Nat) :
    (Valid h s → p ≠ 0 → Apart h s p (MEMSZ (TYPE h s) (stx_len h s)) →
      (stx_dup h s p).2 ≠ 0 ∧ (stx_dup h s p).2 ≠ s ∧
      Valid (stx_dup h s p).1 (stx_dup h s p).2 ∧
      stx_cap (stx_dup h s p).1 (stx_dup h s p).2 = stx_len h s ∧
      stx_len (stx_dup h s p).1 (stx_dup h s p).2 = stx_len h s ∧
      (∀ i, i < stx_len h s →
        (stx_dup h s p).1.mem ((stx_dup h s p).2 + i) = h.mem (s + i)) ∧
      (stx_dup h s p).1.mem ((stx_dup h s p).2 + stx_len h s) = 0 ∧
      stx_equal (stx_dup h s p).1 s (stx_dup h s p).2 = true ∧
      (∀ x, HEAD h s ≤ x → x < HEAD h s + h.blk (HEAD h s) →
        (stx_dup h s p).1.mem x = h.mem x) ∧
      stx_len (stx_dup h s p).1 s = stx_len h s ∧
      stx_cap (stx_dup h s p).1 s = stx_cap h s ∧
      (stx_dup h s p).1.oob = h.oob) ∧
    (stx_check h s = false → stx_dup h s p = (h, 0)) := by
  constructor
  · intro V hp hapart
    obtain ⟨H, hs⟩ := V.hdr
    have hC : CHECK h s = true := V.1
    have hlc : stx_len h s ≤ stx_cap h s := V.2.2.2.1
    have hroom : HEADSZ (TYPE h s) + 2 + stx_cap h s + 1 ≤ h.blk (HEAD h s) := V.2.2.2.2.1
    have hpos : HEADSZ (TYPE h s) + 2 < s := V.2.2.1
    have hlt := GETPROP_lt h (HEAD h s) (TYPE h s) .len
    rw [H.2.2.2.2] at hlt
    have hm := fieldMod_le (TYPE h s)
    have hsz := MEMSZ_small (TYPE h s) (stx_len h s) H.1 (by omega)
    unfold Apart at hapart
    rw [hsz] at hapart
    have D := dup_spec h _ _ _ _ p H hp _ rfl
    rw [hs] at D
    obtain ⟨r1, r2, r3, r4, r5, r6, -, r8⟩ := D
    have hdup : stx_dup h s p = dup h s p := by unfold stx_dup; rw [hC]; rfl
    rw [hdup]
    have hdata : ∀ q u, DATA q u = q + HEADSZ u + 2 := fun _ _ => rfl
    have hsd : s = HEAD h s + HEADSZ (TYPE h s) + 2 := hs.symm
    -- the block of `s` is left alone
    have hframe : ∀ x, HEAD h s ≤ x → x < HEAD h s + h.blk (HEAD h s) →
        (dup h s p).1.mem x = h.mem x := fun x h1 h2 => r6 x (by omega)
    have Hs : Hdr (dup h s p).1 (HEAD h s) (TYPE h s) (stx_cap h s) (stx_len h s) :=
      H.congr (fun i hi => hframe _ (by omega) (by omega))
    obtain ⟨hCs, hTs, hHs, hcaps, hlens⟩ := Hs.read
    rw [hs] at hCs hTs hHs hcaps hlens
    obtain ⟨hCd, hTd, hHd, hcapd, hlend⟩ := r2.read
    have hV : Valid (dup h s p).1 (DATA p (TYPE h s)) :=
      Valid.of_hdr r2 hp (le_refl _) (by omega) r4 r4
    have hne : DATA p (TYPE h s) ≠ s := by
      rw [hdata]; omega
    rw [r1]
    refine ⟨(DATA_sub _ _).2.2.2, hne, hV, hcapd, hlend, r3, r4, ?_, hframe, hlens, hcaps, r8⟩
    unfold stx_equal
    simp only [hCs, hCd, hTs, hTd, hHs, hHd, Hs.2.2.2.2, r2.2.2.2.2, Bool.not_true,
      Bool.or_self, Bool.false_eq_true, if_false, decide_True, Bool.true_and]
    apply memcmp_eq_true
    intro i hi
    rw [r3 i hi]
    exact hframe _ (by omega) (by omega)
  · intro hC
    unfold stx_check at hC
    unfold stx_dup
    rw [hC]
    rfl

theorem stx_dup_compacts_witness :
    Valid heapAbc 20 ∧ stx_cap heapAbc 20 = 10 ∧ stx_len heapAbc 20 = 3 ∧
    Apart heapAbc 20 1000 (MEMSZ (TYPE heapAbc 20) (stx_len heapAbc 20)) ∧
    stx_cap (stx_dup heapAbc 20 1000).1 (stx_dup heapAbc 20 1000).2 = 3 ∧
    stx_len (stx_dup heapAbc 20 1000).1 (stx_dup heapAbc 20 1000).2 = 3 ∧
    stx_equal (stx_dup heapAbc 20 1000).1 20 (stx_dup heapAbc 20 1000).2 = true ∧
    (stx_dup heapAbc 20 1000).1.mem ((stx_dup heapAbc 20 1000).2 + 2) = 99 ∧
    stx_check emptyHeap 20 = false ∧ (stx_dup emptyHeap 20 1000).2 = 0 := by
  have V : Valid heapAbc 20 := by decide
  have A : Apart heapAbc 20 1000 (MEMSZ (TYPE heapAbc 20) (stx_len heapAbc 20)) := by decide
  have w := (stx_dup_compacts heapAbc 20 1000).1 V (by decide) A
  have w2 := (stx_dup_compacts emptyHeap 20 1000).2 (by decide)
  have h3 : stx_len heapAbc 20 = 3 := by decide
  rw [h3] at w
  refine ⟨V, by decide, h3, A, w.2.2.2.1, w.2.2.2.2.1, w.2.2.2.2.2.2.2.1, by decide,
    by decide, ?_⟩
  rw [w2]

set_option maxRecDepth 100000 in
/-- C11 as stated fails in its third part on a handle that passes the check with width bits
that name no header.  `stx_len` answers 0 for such a handle, while `stx_equal` reads its
length through the narrow layout: the cookie, 170, when the width bits are 0, and the byte
five places before the handle when they are 2.  Each of the handles 100 and 700 differs in
length from a handle in good order with the same content, and `stx_equal` is true of the
two. -/
theorem stx_equal_length_mismatch :
    (stx_check heapOdd 100 = true ∧ TYPE heapOdd 100 = 0 ∧ Valid heapOdd 304 ∧
      stx_len heapOdd 100 = 0 ∧ stx_len heapOdd 304 = 170 ∧
      stx_len heapOdd 100 ≠ stx_len heapOdd 304 ∧
      stx_equal heapOdd 100 304 = true) ∧
    (stx_check heapOdd 700 = true ∧ TYPE heapOdd 700 = 2 ∧ Valid heapOdd 804 ∧
      stx_len heapOdd 700 = 0 ∧ stx_len heapOdd 804 = 1 ∧
      stx_len heapOdd 700 ≠ stx_len heapOdd 804 ∧
      stx_equal heapOdd 700 804 = true) := by
  decide

/-- C11 (amended).  `stx_equal` is true of a handle that passes the check and itself, gives
the same result when its arguments are exchanged, whatever the two handles and their header
widths, and is false on two handles of different length whose width bits name one of the two
headers if they pass the check. -/
theorem stx_equal_relation (h : Heap) (a b : Nat) :
    (stx_check h a = true → stx_equal h a a = true) ∧
    stx_equal h a b = stx_equal h b a ∧
    (WidthOk h a → WidthOk h b → stx_len h a ≠ stx_len h b → stx_equal h a b = false) := by
  refine ⟨?_, ?_, ?_⟩
  · intro hC
    unfold stx_check at hC
    unfold stx_equal
    simp only [hC, Bool.not_true, Bool.or_self, Bool.false_eq_true, if_false, decide_True,
      Bool.true_and]
    exact memcmp_eq_true _ _ _ _ (fun _ _ => rfl)
  · unfold stx_equal
    rw [Bool.or_comm (!CHECK h a)]
    split
    · rfl
    · by_cases e : GETPROP h (HEAD h a) (TYPE h a) .len = GETPROP h (HEAD h b) (TYPE h b) .len
      · simp only [e, decide_True, Bool.true_and]
        exact memcmp_eq_comm _ _ _ _
      · have e2 : ¬ GETPROP h (HEAD h b) (TYPE h b) .len
            = GETPROP h (HEAD h a) (TYPE h a) .len := fun x => e x.symm
        simp only [e, e2, decide_False, Bool.false_and]
  · intro wa wb hne
    unfold stx_equal
    by_cases hCa : CHECK h a = true
    · by_cases hCb : CHECK h b = true
      · rw [stx_len_eq_GETPROP h a hCa (wa hCa), stx_len_eq_GETPROP h b hCb (wb hCb)] at hne
        simp only [hCa, hCb, Bool.not_true, Bool.or_self, Bool.false_eq_true, if_false, hne,
          decide_False, Bool.false_and]
      · simp [hCb]
    · simp [hCa]

theorem stx_equal_relation_witness :
    stx_check heapThree 20 = true ∧ stx_equal heapThree 20 20 = true ∧
    TYPE heapThree 20 = TYPE1 ∧ TYPE heapThree 110 = TYPE4 ∧
    stx_equal heapThree 20 110 = true ∧ stx_equal heapThree 110 20 = true ∧
    WidthOk heapThree 20 ∧ WidthOk heapThree 204 ∧
    stx_len heapThree 20 = 3 ∧ stx_len heapThree 204 = 2 ∧
    heapThree.mem 20 = heapThree.mem 204 ∧ heapThree.mem 21 = heapThree.mem 205 ∧
    stx_equal heapThree 20 204 = false := by
  have w := stx_equal_relation heapThree 20 204
  have w2 := stx_equal_relation heapThree 20 110
  refine ⟨by decide, w.1 (by decide), by decide, by decide, by decide, ?_, by decide,
    by decide, by decide, by decide, by decide, by decide,
    w.2.2 (by decide) (by decide) (by decide)⟩
  rw [← w2.2.1]
  decide

/-- C12 as stated fails on a handle that passes the check with width bits that name no
header.  Each of the handles 100 and 700 passes the check and has length 0 by `stx_len`, as
has the empty handle 504, so that the lengths are equal and there is no data byte to compare;
`stx_equal` reads the lengths 170 and 1 through the narrow layout and is false. -/
theorem stx_equal_not_iff :
    (stx_check heapOdd 100 = true ∧ stx_check heapOdd 504 = true ∧
      TYPE heapOdd 100 = 0 ∧ Valid heapOdd 504 ∧
      stx_len heapOdd 100 = 0 ∧ stx_len heapOdd 504 = 0 ∧
      stx_len heapOdd 100 = stx_len heapOdd 504 ∧
      (∀ i, i < stx_len heapOdd 100 → heapOdd.mem (100 + i) = heapOdd.mem (504 + i)) ∧
      stx_equal heapOdd 100 504 = false) ∧
    (stx_check heapOdd 700 = true ∧ stx_check heapOdd 504 = true ∧
      TYPE heapOdd 700 = 2 ∧ stx_len heapOdd 700 = 0 ∧
      stx_len heapOdd 700 = stx_len heapOdd 504 ∧
      (∀ i, i < stx_len heapOdd 700 → heapOdd.mem (700 + i) = heapOdd.mem (504 + i)) ∧
      stx_equal heapOdd 700 504 = false) := by
  have l1 : stx_len heapOdd 100 = 0 := by decide
  have l2 : stx_len heapOdd 700 = 0 := by decide
  refine ⟨⟨by decide, by decide, by decide, by decide, l1, by decide, by decide, ?_,
      by decide⟩,
    ⟨by decide, by decide, by decide, l2, by decide, ?_, by decide⟩⟩
  · intro i hi
    rw [l1] at hi
    exact absurd hi (Nat.not_lt_zero i)
  · intro i hi
    rw [l2] at hi
    exact absurd hi (Nat.not_lt_zero i)

/-- C12 (amended).  On handles whose width bits name one of the two headers if they pass the
check, `stx_equal` is true exactly when both handles pass the check, their lengths are equal
and their first `stx_len` data bytes are the same; neither capacity nor header width
enters. -/
theorem stx_equal_iff (h : Heap) (a b : Nat) (wa : WidthOk h a) (wb : WidthOk h b) :
    stx_equal h a b = true ↔
      (stx_check h a = true ∧ stx_check h b = true ∧ stx_len h a = stx_len h b ∧
        ∀ i, i < stx_len h a → h.mem (a + i) = h.mem (b + i)) := by
  unfold stx_check
  by_cases hCa : CHECK h a = true
  · by_cases hCb : CHECK h b = true
    · rw [stx_len_eq_GETPROP h a hCa (wa hCa), stx_len_eq_GETPROP h b hCb (wb hCb)]
      unfold stx_equal
      simp only [hCa, hCb, Bool.not_true, Bool.or_self, Bool.false_eq_true, if_false,
        Bool.and_eq_true, decide_eq_true_eq, true_and, memcmp_eq_iff]
    · unfold stx_equal
      simp [hCb]
  · unfold stx_equal
    simp [hCa]

theorem stx_equal_iff_witness :
    WidthOk heapThree 20 ∧ WidthOk heapThree 110 ∧
    stx_cap heapThree 20 = 10 ∧ stx_cap heapThree 110 = 300 ∧
    TYPE heapThree 20 = TYPE1 ∧ TYPE heapThree 110 = TYPE4 ∧
    stx_len heapThree 20 = stx_len heapThree 110 ∧
    stx_equal heapThree 20 110 = true := by
  have w := stx_equal_iff heapThree 20 110 (by decide) (by decide)
  refine ⟨by decide, by decide, by decide, by decide, by decide, by decide, by decide, ?_⟩
  rw [w]
  refine ⟨by decide, by decide, by decide, ?_⟩
  have h3 : stx_len heapThree 20 = 3 := by decide
  rw [h3]
  decide

/-- In the heap `heapFF`, with the block at address 16, `stx_from` of any text of
`2 ^ 32 + 5` bytes returns a handle that breaks the invariant at offset capacity. -/
theorem stx_from_wraps5_heapFF (src : List Byte) (hlen : strlen src = 4294967301) :
    (stx_from 0 heapFF 16 src).2 = 26 ∧
    stx_cap (stx_from 0 heapFF 16 src).1 26 = 5 ∧
    (stx_from 0 heapFF 16 src).1.mem (26 + 5) = 255 ∧
    ¬ Inv (stx_from 0 heapFF 16 src).1 (stx_from 0 heapFF 16 src).2 := by
  obtain ⟨w1, -, w3, w4⟩ := stx_from_wraps5 0 heapFF 16 src (by decide) hlen
  have w5 : (stx_from 0 heapFF 16 src).1.mem (26 + 5) = 255 := w4
  refine ⟨w1, w3, w5, ?_⟩
  rw [w1]
  intro hinv
  have h0 := hinv.2.2
  have w3b : stx_cap (stx_from 0 heapFF 16 src).1 (16 + 10) = 5 := w3
  rw [w3b] at h0
  have w5b : (stx_from 0 heapFF 16 src).1.mem (16 + 10 + 5) = 255 := w4
  rw [w5b] at h0
  exact absurd h0 (by decide)

/-- C13 as stated fails for `stx_from` on a text of `2 ^ 32 + 5` bytes `a`: the allocation
succeeds and the handle has length 0 and capacity 5, but the byte at offset 5 was never
written and holds what the fresh block held, here 255. -/
theorem stx_from_long_text_sentinel :
    strlen (List.replicate 4294967301 (97 : Byte)) = 4294967301 ∧
    (stx_from 0 heapFF 16 (List.replicate 4294967301 97)).2 = 26 ∧
    stx_cap (stx_from 0 heapFF 16 (List.replicate 4294967301 97)).1 26 = 5 ∧
    (stx_from 0 heapFF 16 (List.replicate 4294967301 97)).1.mem (26 + 5) = 255 ∧
    ¬ Inv (stx_from 0 heapFF 16 (List.replicate 4294967301 97)).1
      (stx_from 0 heapFF 16 (List.replicate 4294967301 97)).2 :=
  ⟨strlen_replicate _ _ (by decide),
    stx_from_wraps5_heapFF _ (strlen_replicate _ _ (by decide))⟩

/-- C13 (amended).  The handle returned by a successful `stx_new (n)` with `n` below
`2 ^ 32`, by a successful `stx_from` of a text shorter than `2 ^ 32` bytes, or by a
successful `stx_dup` of a valid handle has a length that does not exceed its capacity, a zero
byte at offset length and at offset capacity, the cookie 170, and width bits that name the
header that was allocated: the one selected by the capacity for `stx_new` and `stx_from`,
the one of the source for `stx_dup`. -/
theorem constructors_invariant (FAIL : Int) (h : Heap) (p n s : Nat) (src : List Byte)
    (hp : p ≠ 0) :
    (n < 2 ^ 32 →
      Inv (stx_new h p n).1 (stx_new h p n).2 ∧
      COOKIE (stx_new h p n).1 (stx_new h p n).2 = 170 ∧
      TYPE (stx_new h p n).1 (stx_new h p n).2 = typeFor n ∧
      (stx_new h p n).1.blk p = MEMSZ (typeFor n) n) ∧
    (strlen src < 2 ^ 32 →
      Inv (stx_from FAIL h p src).1 (stx_from FAIL h p src).2 ∧
      COOKIE (stx_from FAIL h p src).1 (stx_from FAIL h p src).2 = 170 ∧
      TYPE (stx_from FAIL h p src).1 (stx_from FAIL h p src).2 = typeFor (strlen src)) ∧
    (Valid h s →
      Inv (stx_dup h s p).1 (stx_dup h s p).2 ∧
      COOKIE (stx_dup h s p).1 (stx_dup h s p).2 = 170 ∧
      TYPE (stx_dup h s p).1 (stx_dup h s p).2 = TYPE h s ∧
      (stx_dup h s p).1.blk p = MEMSZ (TYPE h s) (stx_len h s)) := by
  refine ⟨?_, ?_, ?_⟩
  · intro hn
    obtain ⟨hs, H, m0, mn, hb, -⟩ := stx_new_spec h p n hp (by omega)
    rw [fieldMod_typeFor _ hn] at H
    obtain ⟨-, hT, -, hcap, hlen⟩ := H.read
    rw [hs]
    unfold Inv
    rw [hcap, hlen]
    exact ⟨⟨Nat.zero_le _, m0, mn⟩, H.cookie, hT, hb⟩
  · intro hlen
    obtain ⟨hs, H, m⟩ := stx_from_hdr FAIL h p src hp hlen
    obtain ⟨-, hT, -, hcap, hl⟩ := H.read
    rw [hs]
    unfold Inv
    rw [hcap, hl]
    exact ⟨⟨le_refl _, m, m⟩, H.cookie, hT⟩
  · intro V
    obtain ⟨H, hs⟩ := V.hdr
    have hC : CHECK h s = true := V.1
    have hlt := GETPROP_lt h (HEAD h s) (TYPE h s) .len
    rw [H.2.2.2.2] at hlt
    have hm := fieldMod_le (TYPE h s)
    have D := dup_spec h _ _ _ _ p H hp _ rfl
    rw [hs] at D
    obtain ⟨r1, r2, -, r4, r5, -⟩ := D
    have hdup : stx_dup h s p = dup h s p := by unfold stx_dup; rw [hC]; rfl
    obtain ⟨-, hT, -, hcap, hl⟩ := r2.read
    rw [hdup, r1]
    unfold Inv
    rw [hcap, hl, MEMSZ_small _ _ H.1 (by omega)]
    exact ⟨⟨le_refl _, r4, r4⟩, r2.cookie, hT, r5⟩

theorem constructors_invariant_witness :
    (16 : Nat) ≠ 0 ∧ (300 : Nat) < 2 ^ 32 ∧ strlen [104, 105] < 2 ^ 32 ∧ Valid heapAbc 20 ∧
    TYPE (stx_new emptyHeap 16 300).1 (stx_new emptyHeap 16 300).2 = TYPE4 ∧
    Inv (stx_new emptyHeap 16 300).1 (stx_new emptyHeap 16 300).2 ∧
    Inv (stx_from 0 emptyHeap 16 [104, 105]).1 (stx_from 0 emptyHeap 16 [104, 105]).2 ∧
    Inv (stx_dup heapAbc 20 1000).1 (stx_dup heapAbc 20 1000).2 ∧
    TYPE (stx_dup heapAbc 20 1000).1 (stx_dup heapAbc 20 1000).2 = TYPE1 := by
  have V : Valid heapAbc 20 := by decide
  have w1 := (constructors_invariant 0 emptyHeap 16 300 0 [] (by decide)).1 (by decide)
  have w2 := (constructors_invariant 0 emptyHeap 16 0 0 [104, 105] (by decide)).2.1
    (by decide)
  have w3 := (constructors_invariant 0 heapAbc 1000 0 20 [] (by decide)).2.2 V
  exact ⟨by decide, by decide, by decide, V, w1.2.2.1, w1.1, w2.1, w3.1,
    w3.2.2.1.trans (by decide)⟩

/-- C14 as stated fails for `stx_resize` to a capacity of `2 ^ 32` or more.  The wide
handle 26 satisfies the invariant, with length 12; `stx_resize` to `2 ^ 32 + 5` succeeds
and the handle written back has length 12 and capacity 5. -/
theorem stx_resize_cap_wraps :
    Valid heapWide 26 ∧ Inv heapWide 26 ∧
    (stx_resize heapWide 26 4294967301 1000).2.2 = true ∧
    (stx_resize heapWide 26 4294967301 1000).2.1 = 1010 ∧
    stx_len (stx_resize heapWide 26 4294967301 1000).1 1010 = 12 ∧
    stx_cap (stx_resize heapWide 26 4294967301 1000).1 1010 = 5 ∧
    ¬ Inv (stx_resize heapWide 26 4294967301 1000).1
      (stx_resize heapWide 26 4294967301 1000).2.1 := by
  decide

/-- C14 (amended).  On a valid handle the invariant (length at most capacity, zero bytes at
offsets length and capacity) holds again, and no store has left the block, after
`stx_reset`; after `stx_append`, `stx_append_count`, `stx_append_alloc` and
`stx_append_count_alloc` when the bytes taken from the source fit the capacity; after
`stx_append_alloc` and `stx_append_count_alloc` when they do not fit, the allocator answers
a block, and the new capacity, twice the new length, is below `2 ^ 32` and selects the
header width that the handle has; and after `stx_resize` to a capacity below `2 ^ 32` that
selects the same header width or is at least the length, when the allocator answers a block
or the capacity is the current one. -/
theorem invariant_preserved (FAIL : Int) (h : Heap) (s : Nat) (src : List Byte)
    (n c p : Nat) (V : Valid h s) :
    (Inv (stx_reset h s) s ∧ (stx_reset h s).oob = h.oob) ∧
    (stx_len h s + strlen src ≤ stx_cap h s →
      Inv (stx_append FAIL h s (some src)).1 s ∧
      (stx_append FAIL h s (some src)).1.oob = h.oob ∧
      Inv (stx_append_alloc FAIL h s (some src) p).1
        (stx_append_alloc FAIL h s (some src) p).2.1 ∧
      (stx_append_alloc FAIL h s (some src) p).1.oob = h.oob) ∧
    (stx_len h s + incOf src n ≤ stx_cap h s →
      Inv (stx_append_count FAIL h s (some src) n).1 s ∧
      (stx_append_count FAIL h s (some src) n).1.oob = h.oob ∧
      Inv (stx_append_count_alloc FAIL h s (some src) n p).1
        (stx_append_count_alloc FAIL h s (some src) n p).2.1 ∧
      (stx_append_count_alloc FAIL h s (some src) n p).1.oob = h.oob) ∧
    (stx_cap h s < stx_len h s + strlen src → p ≠ 0 →
      (stx_len h s + strlen src) * 2 < 2 ^ 32 →
      typeFor ((stx_len h s + strlen src) * 2) = TYPE h s →
      Inv (stx_append_alloc FAIL h s (some src) p).1
        (stx_append_alloc FAIL h s (some src) p).2.1 ∧
      (stx_append_alloc FAIL h s (some src) p).1.oob = h.oob) ∧
    (stx_cap h s < stx_len h s + incOf src n → p ≠ 0 →
      (stx_len h s + incOf src n) * 2 < 2 ^ 32 →
      typeFor ((stx_len h s + incOf src n) * 2) = TYPE h s →
      Inv (stx_append_count_alloc FAIL h s (some src) n p).1
        (stx_append_count_alloc FAIL h s (some src) n p).2.1 ∧
      (stx_append_count_alloc FAIL h s (some src) n p).1.oob = h.oob) ∧
    (c < 2 ^ 32 → (c = stx_cap h s ∨ p ≠ 0) → (typeFor c = TYPE h s ∨ stx_len h s ≤ c) →
      (stx_resize h s c p).2.2 = true ∧
      Inv (stx_resize h s c p).1 (stx_resize h s c p).2.1 ∧
      (stx_resize h s c p).1.oob = h.oob) := by
  obtain ⟨H, hs⟩ := V.hdr
  have hlc : stx_len h s ≤ stx_cap h s := V.2.2.2.1
  have hroom : HEADSZ (TYPE h s) + 2 + stx_cap h s + 1 ≤ h.blk (HEAD h s) := V.2.2.2.2.1
  have hterm : h.mem (s + stx_len h s) = 0 := V.2.2.2.2.2.1
  have hsent : h.mem (s + stx_cap h s) = 0 := V.2.2.2.2.2.2
  have e0 : incOf src 0 = strlen src := rfl
  -- the appends that fit
  have fits : ∀ m alloc, stx_len h s + incOf src m ≤ stx_cap h s →
      (append FAIL h s (some src) m alloc p).2.1 = s ∧
      Inv (append FAIL h s (some src) m alloc p).1 s ∧
      (append FAIL h s (some src) m alloc p).1.oob = h.oob := by
    intro m alloc hfit
    have D := append_fits_inv FAIL h _ _ _ _ src m alloc p H hfit hroom (by rw [hs]; exact hsent)
    rwa [hs] at D
  have fits0 : ∀ m, stx_len h s + incOf src m ≤ stx_cap h s →
      Inv (append FAIL h s (some src) m false 0).1 s ∧
      (append FAIL h s (some src) m false 0).1.oob = h.oob := by
    intro m hfit
    have D := append_fits_inv FAIL h _ _ _ _ src m false 0 H hfit hroom
      (by rw [hs]; exact hsent)
    rw [hs] at D
    exact D.2
  -- the appends that grow
  have grows : ∀ m, stx_cap h s < stx_len h s + incOf src m → p ≠ 0 →
      (stx_len h s + incOf src m) * 2 < 2 ^ 32 →
      typeFor ((stx_len h s + incOf src m) * 2) = TYPE h s →
      Inv (append FAIL h s (some src) m true p).1 (append FAIL h s (some src) m true p).2.1 ∧
      (append FAIL h s (some src) m true p).1.oob = h.oob := by
    intro m hover hp hcap hty
    have D := append_grows_same FAIL h _ _ _ _ src m p H hlc hroom hover hcap hty hp _ rfl
    rw [hs] at D
    obtain ⟨g1, -, g3, -, -, g6, g7, -, g9⟩ := D
    rw [g1]
    exact ⟨Inv.from_hdr g3 (by omega) g6 g7, g9⟩
  refine ⟨?_, ?_, ?_, ?_, ?_, ?_⟩
  · have D := reset_inv h _ _ _ _ H hroom (by rw [hs]; exact hsent)
    rwa [hs] at D
  · intro hfit
    have f1 := fits0 0 (by rw [e0]; exact hfit)
    have f2 := fits 0 true (by rw [e0]; exact hfit)
    unfold stx_append stx_append_alloc
    simp only
    rw [f2.1]
    exact ⟨f1.1, f1.2, f2.2.1, f2.2.2⟩
  · intro hfit
    have f1 := fits0 n hfit
    have f2 := fits n true hfit
    unfold stx_append_count stx_append_count_alloc
    simp only
    rw [f2.1]
    exact ⟨f1.1, f1.2, f2.2.1, f2.2.2⟩
  · intro hover hp hcap hty
    unfold stx_append_alloc
    exact grows 0 (by rw [e0]; exact hover) hp (by rw [e0]; exact hcap) (by rw [e0]; exact hty)
  · intro hover hp hcap hty
    unfold stx_append_count_alloc
    exact grows n hover hp hcap hty
  · intro hcap hp hok
    have D := resize_inv h _ _ _ _ c p H hlc hroom (by rw [hs]; exact hterm)
      (by rw [hs]; exact hsent) hcap hp hok
    rw [hs] at D
    unfold stx_resize
    exact D

theorem invariant_preserved_witness :
    Valid heapAb 20 ∧ stx_len heapAb 20 = 2 ∧ stx_cap heapAb 20 = 4 ∧
    Inv (stx_reset heapAb 20) 20 ∧
    stx_len heapAb 20 + strlen [99] ≤ stx_cap heapAb 20 ∧
    Inv (stx_append 0 heapAb 20 (some [99])).1 20 ∧
    stx_len heapAb 20 + incOf [99, 100, 101] 1 ≤ stx_cap heapAb 20 ∧
    Inv (stx_append_count 0 heapAb 20 (some [99, 100, 101]) 1).1 20 ∧
    stx_cap heapAb 20 < stx_len heapAb 20 + strlen [99, 100, 101] ∧
    typeFor ((stx_len heapAb 20 + strlen [99, 100, 101]) * 2) = TYPE heapAb 20 ∧
    Inv (stx_append_alloc 0 heapAb 20 (some [99, 100, 101]) 1000).1
      (stx_append_alloc 0 heapAb 20 (some [99, 100, 101]) 1000).2.1 ∧
    stx_len (stx_append_alloc 0 heapAb 20 (some [99, 100, 101]) 1000).1
      (stx_append_alloc 0 heapAb 20 (some [99, 100, 101]) 1000).2.1 = 5 ∧
    stx_cap heapAb 20 < stx_len heapAb 20 + incOf [99, 100, 101, 102] 3 ∧
    Inv (stx_append_count_alloc 0 heapAb 20 (some [99, 100, 101, 102]) 3 1000).1
      (stx_append_count_alloc 0 heapAb 20 (some [99, 100, 101, 102]) 3 1000).2.1 ∧
    (8 : Nat) < 2 ^ 32 ∧ typeFor 8 = TYPE heapAb 20 ∧
    Inv (stx_resize heapAb 20 8 1000).1 (stx_resize heapAb 20 8 1000).2.1 ∧
    (stx_resize heapAb 20 8 1000).1.oob = false := by
  have V : Valid heapAb 20 := by decide
  have w1 := invariant_preserved 0 heapAb 20 [99] 0 8 1000 V
  have w2 := invariant_preserved 0 heapAb 20 [99, 100, 101] 1 8 1000 V
  have w3 := invariant_preserved 0 heapAb 20 [99, 100, 101, 102] 3 8 1000 V
  have a1 := w1.2.1 (by decide)
  have a2 := w2.2.2.1 (by decide)
  have a3 := w2.2.2.2.1 (by decide) (by decide) (by decide) (by decide)
  have a4 := w3.2.2.2.2.1 (by decide) (by decide) (by decide) (by decide)
  have a5 := w1.2.2.2.2.2 (by decide) (Or.inr (by decide)) (Or.inl (by decide))
  exact ⟨V, by decide, by decide, w1.1.1, by decide, a1.1, by decide, a2.1, by decide,
    by decide, a3.1, by decide, by decide, a4.1, by decide, by decide, a5.2.1,
    a5.2.2.trans (by decide)⟩

set_option maxRecDepth 100000 in
/-- Two paths on which the invariant is lost although the call succeeds.  A formatted append
of "cd" to the handle that holds "ab" leaves length 2 with the byte "c" at offset 2; an
`stx_append_alloc` of 128 bytes to an empty narrow handle leaves length 0 with the byte "a"
at offset 0. -/
theorem invariant_lost :
    Inv heapAb 20 ∧
    (stx_append_format 0 heapAb 20 (.text [99, 100])).2 = 2 ∧
    ¬ Inv (stx_append_format 0 heapAb 20 (.text [99, 100])).1 20 ∧
    Inv (stx_new emptyHeap 16 0).1 20 ∧
    (stx_append_alloc 0 (stx_new emptyHeap 16 0).1 20
      (some (List.replicate 128 97)) 1000).2.2 = 128 ∧
    ¬ Inv (stx_append_alloc 0 (stx_new emptyHeap 16 0).1 20
        (some (List.replicate 128 97)) 1000).1
      (stx_append_alloc 0 (stx_new emptyHeap 16 0).1 20
        (some (List.replicate 128 97)) 1000).2.1 := by
  decide

/-- C15.  On a valid handle of either width, `stx_free` zeroes header and validity record,
that is the first `HEADSZ + 2` bytes of the block, while the block is still allocated, and
then releases it; on the scrubbed bytes the check is false and `stx_len`, `stx_cap` and
`stx_spc` are 0.  On a handle that fails the check `stx_free` changes nothing. -/
theorem stx_free_scrubs (h : Heap) (s : Nat) :
    (Valid h s →
      (∀ i, i < HEADSZ (TYPE h s) + sizeof_Attr → (stx_free h s).mem (HEAD h s + i) = 0) ∧
      stx_check (stx_free h s) s = false ∧
      stx_len (stx_free h s) s = 0 ∧ stx_cap (stx_free h s) s = 0 ∧
      stx_spc (stx_free h s) s = 0 ∧
      (stx_free h s).blk (HEAD h s) = 0 ∧
      (stx_free h s).oob = h.oob) ∧
    (stx_check h s = false → stx_free h s = h) := by
  constructor
  · intro V
    obtain ⟨H, hs⟩ := V.hdr
    have hroom : HEADSZ (TYPE h s) + 2 + stx_cap h s + 1 ≤ h.blk (HEAD h s) := V.2.2.2.2.1
    have D := free_spec h _ _ _ _ H hroom
    rw [hs] at D
    obtain ⟨d1, -, d3, d4⟩ := D
    have hs2 : s - 2 = HEAD h s + HEADSZ (TYPE h s) := by
      have := (DATA_sub (HEAD h s) (TYPE h s)).1
      rwa [hs] at this
    have hC : CHECK (stx_free h s) s = false := by
      unfold CHECK COOKIE
      rw [hs2, d1 _ (by omega)]
      simp [MAGIC]
    obtain ⟨a1, a2, a3⟩ := access_unchecked _ _ hC
    exact ⟨d1, hC, a1, a2, a3, d3, d4⟩
  · intro hC
    unfold stx_check at hC
    unfold stx_free
    rw [hC]
    rfl

theorem stx_free_scrubs_witness :
    Valid heapWide 26 ∧ TYPE heapWide 26 = TYPE4 ∧
    (List.range 10).map (fun i => (stx_free heapWide 26).mem (16 + i))
      = [0, 0, 0, 0, 0, 0, 0, 0, 0, 0] ∧
    stx_check (stx_free heapWide 26) 26 = false ∧
    stx_len (stx_free heapWide 26) 26 = 0 ∧
    Valid heapAb 20 ∧ TYPE heapAb 20 = TYPE1 ∧
    stx_check (stx_free heapAb 20) 20 = false ∧
    stx_check emptyHeap 20 = false ∧ (stx_free emptyHeap 20).blk 16 = emptyHeap.blk 16 := by
  have V : Valid heapWide 26 := by decide
  have V2 : Valid heapAb 20 := by decide
  have w := (stx_free_scrubs heapWide 26).1 V
  have w2 := (stx_free_scrubs heapAb 20).1 V2
  have w3 := (stx_free_scrubs emptyHeap 20).2 (by decide)
  refine ⟨V, by decide, by decide, w.2.1, w.2.2.1, V2, by decide, w2.2.1, by decide, ?_⟩
  rw [w3]

/-- C16.  `stx_check` is true exactly of a non-null handle whose byte two places before the
data is 170; on a handle that fails the check `stx_len`, `stx_cap` and `stx_spc` are 0; and
whenever the length does not exceed the capacity, `stx_spc` is their difference, for both
header widths. -/
theorem stx_check_and_spc (h : Heap) (s : Nat) :
    (stx_check h s = true ↔ (s ≠ 0 ∧ (h.mem (s - 2)).val = 170)) ∧
    (stx_check h s = false →
      stx_len h s = 0 ∧ stx_cap h s = 0 ∧ stx_spc h s = 0) ∧
    (stx_len h s ≤ stx_cap h s → stx_spc h s = stx_cap h s - stx_len h s) := by
  refine ⟨?_, ?_, ?_⟩
  · unfold stx_check CHECK COOKIE MAGIC
    simp
  · intro hC
    exact access_unchecked h s hC
  · intro hle
    by_cases hC : CHECK h s = true
    · unfold stx_len stx_cap ACCESS at hle ⊢
      unfold stx_spc
      simp only [hC, Bool.not_true, Bool.false_eq_true, if_false] at hle ⊢
      by_cases h1 : TYPE h s = TYPE1
      · simp only [h1, TYPE1, TYPE4, OfNat.one_ne_ofNat, if_true, if_false] at hle ⊢
        unfold toSize SIZE_MOD
        have := (h.mem (HEAD h s + off1 .cap)).isLt
        omega
      · by_cases h4 : TYPE h s = TYPE4
        · simp only [h4, TYPE1, TYPE4, OfNat.ofNat_ne_one, if_true, if_false] at hle ⊢
          have := load32_lt h (HEAD h s + off4 .cap)
          unfold U32_MOD
          omega
        · simp only [h1, h4, if_false]
    · have hC2 : CHECK h s = false := by simpa using hC
      obtain ⟨a1, a2, a3⟩ := access_unchecked h s hC2
      rw [a1, a2, a3]

theorem stx_check_and_spc_witness :
    stx_check emptyHeap 20 = false ∧ stx_len emptyHeap 20 = 0 ∧
    stx_check heapAb 0 = false ∧
    stx_len heapWide 26 ≤ stx_cap heapWide 26 ∧ stx_spc heapWide 26 = 300 - 12 ∧
    stx_len heapAb 20 ≤ stx_cap heapAb 20 ∧ stx_spc heapAb 20 = 4 - 2 := by
  have w := (stx_check_and_spc emptyHeap 20).2.1 (by decide)
  have w2 := (stx_check_and_spc heapWide 26).2.2 (by decide)
  have w3 := (stx_check_and_spc heapAb 20).2.2 (by decide)
  refine ⟨by decide, w.1, by decide, by decide, ?_, by decide, ?_⟩
  · rw [w2]; decide
  · rw [w3]; decide

/-- C17.  On a valid handle `stx_reset` sets the stored length to 0 and the first data byte
to zero, and leaves the capacity, the cookie, the flags and every data byte from offset 1 on
as they were; no store leaves the block.  On a handle that fails the check it changes
nothing. -/
theorem stx_reset_frame (h : Heap) (s : Nat) :
    (Valid h s →
      stx_len (stx_reset h s) s = 0 ∧
      (stx_reset h s).mem s = 0 ∧
      stx_cap (stx_reset h s) s = stx_cap h s ∧
      COOKIE (stx_reset h s) s = COOKIE h s ∧
      FLAGS (stx_reset h s) s = FLAGS h s ∧
      (∀ i, 1 ≤ i → (stx_reset h s).mem (s + i) = h.mem (s + i)) ∧
      (stx_reset h s).blk = h.blk ∧
      (stx_reset h s).oob = h.oob) ∧
    (stx_check h s = false → stx_reset h s = h) := by
  constructor
  · intro V
    obtain ⟨H, hs⟩ := V.hdr
    have hroom : HEADSZ (TYPE h s) + 2 + stx_cap h s + 1 ≤ h.blk (HEAD h s) := V.2.2.2.2.1
    have D := reset_spec h _ _ _ _ H hroom
    rw [hs] at D
    obtain ⟨d1, d2, d3, d4, d5⟩ := D
    obtain ⟨-, -, -, hcap, hlen⟩ := d1.read
    rw [hs] at hcap hlen
    have hsd : s = HEAD h s + HEADSZ (TYPE h s) + 2 := hs.symm
    refine ⟨hlen, d2, hcap, ?_, ?_, ?_, d4, d5⟩
    · unfold COOKIE
      rw [d3 _ (by omega) (by omega)]
    · unfold FLAGS
      rw [d3 _ (by omega) (by omega)]
    · intro i hi
      exact d3 _ (by omega) (by omega)
  · intro hC
    unfold stx_check at hC
    unfold stx_reset
    rw [hC]
    rfl

theorem stx_reset_frame_witness :
    Valid heapWide 26 ∧ stx_len heapWide 26 = 12 ∧
    stx_len (stx_reset heapWide 26) 26 = 0 ∧ stx_cap (stx_reset heapWide 26) 26 = 300 ∧
    (List.range 4).map (fun i => (stx_reset heapWide 26).mem (26 + i)) = [0, 98, 99, 100] ∧
    stx_check emptyHeap 20 = false ∧ (stx_reset emptyHeap 20).mem 20 = emptyHeap.mem 20 := by
  have V : Valid heapWide 26 := by decide
  have w := (stx_reset_frame heapWide 26).1 V
  have w2 := (stx_reset_frame emptyHeap 20).2 (by decide)
  refine ⟨V, by decide, w.1, ?_, by decide, by decide, ?_⟩
  · rw [w.2.2.1]; decide
  · rw [w2]

/-- C18 fails: the test `src_len < 0` is made on a `size_t` and never holds, so an engine
error is taken for a rendering of `2 ^ 64 - 1` bytes.  Whatever the value of `STX_FAIL`,
which is what comes back when no space is left, an engine error on the handle that holds
"ab" returns -1 and on the empty handle returns 1: the result depends on the length and is
not `STX_FAIL` in both cases.  The terminator is put back and the length is unchanged. -/
theorem stx_append_format_error_result (FAIL : Int) :
    Valid heapFull 20 ∧ stx_spc heapFull 20 = 0 ∧
    (stx_append_format FAIL heapFull 20 .error).2 = FAIL ∧
    Valid heapAb 20 ∧ stx_len heapAb 20 = 2 ∧ stx_spc heapAb 20 = 2 ∧
    (stx_append_format FAIL heapAb 20 .error).2 = -1 ∧
    stx_len (stx_append_format FAIL heapAb 20 .error).1 20 = 2 ∧
    (stx_append_format FAIL heapAb 20 .error).1.mem (20 + 2) = 0 ∧
    Valid (stx_new emptyHeap 16 4).1 20 ∧ stx_len (stx_new emptyHeap 16 4).1 20 = 0 ∧
    stx_spc (stx_new emptyHeap 16 4).1 20 = 4 ∧
    (stx_append_format FAIL (stx_new emptyHeap 16 4).1 20 .error).2 = 1 ∧
    ¬ ((stx_append_format FAIL heapAb 20 .error).2 = FAIL ∧
       (stx_append_format FAIL (stx_new emptyHeap 16 4).1 20 .error).2 = FAIL) := by
  have V0 : Valid heapFull 20 := by decide
  have V1 : Valid heapAb 20 := by decide
  have V2 : Valid (stx_new emptyHeap 16 4).1 20 := by decide
  have e0 : stx_append_format FAIL heapFull 20 .error = (heapFull, FAIL) := by
    have H := V0.hdr.1
    have k := append_format_nospace FAIL heapFull _ _ _ _ .error H (by decide)
    rw [V0.hdr.2] at k
    unfold stx_append_format
    rw [V0.1, k]
    rfl
  have e1 : stx_append_format FAIL heapAb 20 .error = (store heapAb 16 (20 + 2) 0, -1) := by
    have H := V1.hdr.1
    have k := append_format_error FAIL heapAb _ _ _ _ H (by decide)
    rw [V1.hdr.2] at k
    unfold stx_append_format
    rw [V1.1, k]
    have a1 : HEAD heapAb 20 = 16 := by decide
    have a2 : stx_len heapAb 20 = 2 := by decide
    rw [a1, a2]
    rfl
  have e2 : stx_append_format FAIL (stx_new emptyHeap 16 4).1 20 .error =
      (store (stx_new emptyHeap 16 4).1 16 (20 + 0) 0, 1) := by
    have H := V2.hdr.1
    have k := append_format_error FAIL (stx_new emptyHeap 16 4).1 _ _ _ _ H (by decide)
    rw [V2.hdr.2] at k
    unfold stx_append_format
    rw [V2.1, k]
    have a1 : HEAD (stx_new emptyHeap 16 4).1 20 = 16 := by decide
    have a2 : stx_len (stx_new emptyHeap 16 4).1 20 = 0 := by decide
    rw [a1, a2]
    rfl
  rw [e0, e1, e2]
  refine ⟨V0, by decide, rfl, V1, by decide, by decide, rfl, by decide, by decide, V2,
    by decide, by decide, rfl, ?_⟩
  rintro ⟨h1, h2⟩
  have h3 : (-1 : Int) = FAIL := h1
  have h4 : (1 : Int) = FAIL := h2
  omega

/-- C19 as stated fails at `n = 0`: the bound 0 stands for "no bound".  On the empty handle
of capacity 4, `stx_append_count` of "ab" with `n = 0` returns 2 and leaves length 2, where
`min (n, strlen (src))` is 0. -/
theorem stx_append_count_zero_bound :
    Valid (stx_new emptyHeap 16 4).1 20 ∧ stx_len (stx_new emptyHeap 16 4).1 20 = 0 ∧
    min 0 (strlen [97, 98]) = 0 ∧
    (stx_append_count 0 (stx_new emptyHeap 16 4).1 20 (some [97, 98]) 0).2 = 2 ∧
    stx_len (stx_append_count 0 (stx_new emptyHeap 16 4).1 20 (some [97, 98]) 0).1 20 = 2 ∧
    (stx_append_count 0 (stx_new emptyHeap 16 4).1 20 (some [97, 98]) 0).1.mem 21 = 98 := by
  decide

/-- C19 (amended).  On a valid handle and for a bound `n` other than 0, `stx_append_count`
takes `min (n, strlen (src))` bytes, never more than `n`: when they fit it returns that
number, raises the length by exactly it, keeps the capacity and the old content and puts
the bytes and a zero byte behind it, and no store leaves the block; when they do not fit
the heap is left as it was. -/
theorem stx_append_count_bounded (FAIL : Int) (h : Heap) (s : Nat) (src : List Byte) (n : Nat)
    (V : Valid h s) (hn : n ≠ 0) :
    min n (strlen src) ≤ n ∧
    (stx_len h s + min n (strlen src) ≤ stx_cap h s →
      (stx_append_count FAIL h s (some src) n).2 = (min n (strlen src) : Nat) ∧
      stx_len (stx_append_count FAIL h s (some src) n).1 s
        = stx_len h s + min n (strlen src) ∧
      stx_cap (stx_append_count FAIL h s (some src) n).1 s = stx_cap h s ∧
      (∀ i, i < stx_len h s →
        (stx_append_count FAIL h s (some src) n).1.mem (s + i) = h.mem (s + i)) ∧
      (∀ i, i < min n (strlen src) →
        src[i]? = some ((stx_append_count FAIL h s (some src) n).1.mem (s + stx_len h s + i))) ∧
      (stx_append_count FAIL h s (some src) n).1.mem (s + stx_len h s + min n (strlen src))
        = 0 ∧
      (stx_append_count FAIL h s (some src) n).1.oob = h.oob) ∧
    (stx_cap h s < stx_len h s + min n (strlen src) →
      stx_len h s + min n (strlen src) < 2 ^ 64 →
      (stx_append_count FAIL h s (some src) n).1 = h) := by
  obtain ⟨H, hs⟩ := V.hdr
  have hroom : HEADSZ (TYPE h s) + 2 + stx_cap h s + 1 ≤ h.blk (HEAD h s) := V.2.2.2.2.1
  have e : incOf src n = min n (strlen src) := by
    unfold incOf strnlen
    rw [if_pos hn, Nat.min_comm]
  refine ⟨Nat.min_le_left _ _, ?_, ?_⟩
  · intro hfit
    have D := append_fits FAIL h _ _ _ _ src n false 0 H (by rw [e]; exact hfit) _ rfl
    rw [hs, e] at D
    obtain ⟨-, r2, r3, -, r5, r6, r7, r8⟩ := D
    obtain ⟨-, -, -, hcap, hlen⟩ := r3.read
    rw [hs] at hcap hlen
    have hsz : s = HEAD h s + HEADSZ (TYPE h s) + 2 := hs.symm
    have r8 := r8 hroom
    refine ⟨r2, hlen, hcap, ?_, ?_, r6, r8⟩
    · intro i hi
      exact r7 _ (by omega) (by omega)
    · intro i hi
      have hlen := strlen_le_length src
      have hmin : min n (strlen src) ≤ strlen src := Nat.min_le_right _ _
      rw [getElem?_of_getD src i (by omega)]
      exact congrArg some (r5 i hi).symm
  · intro hover hsz
    have hmod : (stx_len h s + incOf src n) % SIZE_MOD = stx_len h s + min n (strlen src) := by
      rw [e]; exact Nat.mod_eq_of_lt hsz
    have key := append_nofit FAIL h _ _ _ _ src n 0 H (by rw [hmod]; exact hover)
    rw [hs] at key
    unfold stx_append_count
    rw [key]

theorem stx_append_count_bounded_witness :
    Valid (stx_new emptyHeap 16 4).1 20 ∧ (2 : Nat) ≠ 0 ∧
    stx_len (stx_new emptyHeap 16 4).1 20 + min 2 (strlen [97, 98, 99])
      ≤ stx_cap (stx_new emptyHeap 16 4).1 20 ∧
    (stx_append_count 0 (stx_new emptyHeap 16 4).1 20 (some [97, 98, 99]) 2).2 = 2 ∧
    stx_len (stx_append_count 0 (stx_new emptyHeap 16 4).1 20 (some [97, 98, 99]) 2).1 20
      = 2 ∧
    Valid heapAb 20 ∧ stx_cap heapAb 20 < stx_len heapAb 20 + min 3 (strlen [99, 100, 101]) ∧
    stx_len (stx_append_count 0 heapAb 20 (some [99, 100, 101]) 3).1 20 = 2 := by
  have V : Valid (stx_new emptyHeap 16 4).1 20 := by decide
  have V2 : Valid heapAb 20 := by decide
  have w := (stx_append_count_bounded 0 (stx_new emptyHeap 16 4).1 20 [97, 98, 99] 2 V
    (by decide)).2.1 (by decide)
  have w2 := (stx_append_count_bounded 0 heapAb 20 [99, 100, 101] 3 V2
    (by decide)).2.2 (by decide) (by decide)
  refine ⟨V, by decide, by decide, ?_, ?_, V2, by decide, ?_⟩
  · rw [w.1]; decide
  · rw [w.2.1]; decide
  · rw [w2]; decide

/-- C20 fails on a width change to a capacity below the length.  On the wide handle of
length 12 and capacity 300, `resize` to capacity 0 obtains a block of 5 bytes at address
2000, with one data byte at 2004, and copies `len + 1 = 13` bytes to the data offsets 0 to
12: the copy ends 12 bytes past the end of the block (the byte "f" lands at offset 5), and
the store is recorded as leaving the block. -/
theorem resize_copy_overruns :
    Valid heapWide 26 ∧ stx_len heapWide 26 = 12 ∧ stx_cap heapWide 26 = 300 ∧
    heapWide.oob = false ∧
    (resize heapWide 26 0 2000).2.2 = true ∧
    (resize heapWide 26 0 2000).2.1 = 2004 ∧
    (resize heapWide 26 0 2000).1.blk 2000 = 5 ∧
    2000 + (resize heapWide 26 0 2000).1.blk 2000 + 12 = 2004 + (stx_len heapWide 26 + 1) ∧
    (resize heapWide 26 0 2000).1.mem (2004 + 5) = 102 ∧
    (resize heapWide 26 0 2000).1.oob = true := by
  decide

end Stricks
